import Mathlib

/-!
Shallow embedding of the opencode agenda plugin: the append-only event store
and materializer (`src/event-store.ts`), the poll-loop, cascade queue and
drain machinery (`src/plugin.ts`), and the safety validator (`safety.ts`).

Conventions of the embedding:
* ISO-8601 timestamps are modelled as `String`, compared lexicographically,
  exactly as the TypeScript code compares them (`b.timestamp >= entry.createdAt`,
  `e.timestamp > lastBusTimestamp`).  Where the code converts a timestamp to
  milliseconds via `new Date(s).getTime()` the conversion is an explicit
  environment function `parseMs : String -> Int`.
* A JavaScript `Map` is modelled as an association list in insertion order:
  `set` on an existing key updates the value in place, `set` on a new key
  appends, and iteration follows that order.
* The generated record id (`generateId("evt")`) of a persisted `StoreEvent`
  is written by `append` and never read back by any materialization, matching
  or scheduling code, so the embedding keeps only `timestamp` and `payload`.
* Fallible external calls (the command-execution collaborator) are modelled
  by a boolean outcome supplied by an `Env`; fresh random ids (`randomUUID`)
  are modelled by a counter or by explicitly supplied fresh names.
-/

namespace Agenda

/-- Entry lifecycle status (`ScheduleStatus` in `event-store.ts`). -/
inductive ScheduleStatus where
  | pending
  | executed
  | cancelled
  | failed
  | expired
deriving DecidableEq, Repr

/-- Convergence mode of an event trigger: `"any"` fires on first match,
`"all"` waits for every kind (`matchMode` in `event-store.ts`). -/
inductive MatchMode where
  | any
  | all
deriving DecidableEq, Repr

/-- `eventKind: string | string[]` of an event trigger. -/
inductive EventKinds where
  | one (kind : String)
  | many (kinds : List String)
deriving DecidableEq, Repr

/-- Trigger union (`TimeTrigger | EventTrigger` in `event-store.ts`).
`matchMode` is optional and defaults to `any`; `expiresAt` is optional. -/
inductive Trigger where
  | time (executeAt : String)
  | event (eventKind : EventKinds) (matchMode : Option MatchMode) (expiresAt : Option String)
deriving DecidableEq, Repr

/-- Action union (`event-store.ts`): the `schedule` variant recursively
carries a nested action and trigger. -/
inductive Action where
  | command (command : String) (arguments : String) (sessionId : String)
  | emit (kind : String) (message : String)
  | cancel (scheduleId : String) (reason : String)
  | schedule (action : Action) (trigger : Trigger) (reason : String)
deriving DecidableEq, Repr

/-- Payload of a persisted log record (`StoreEvent` discriminated union). -/
inductive StorePayload where
  | created (scheduleId : String) (trigger : Trigger) (action : Action)
      (reason : String) (createdBy : String)
  | cancelled (scheduleId : String) (reason : String)
  | executed (scheduleId : String) (result : String)
      (triggeredByEvent : Option String) (actualSessionId : Option String)
  | failed (scheduleId : String) (error : String) (triggeredByEvent : Option String)
  | expired (scheduleId : String)
  | busEmitted (eventId : String) (kind : String) (message : String) (sessionId : String)
deriving DecidableEq, Repr

/-- A persisted log record: generated timestamp plus tagged payload. -/
structure StoreEvent where
  timestamp : String
  payload : StorePayload
deriving DecidableEq, Repr

/-- Materialized unit of work (`ScheduleEntry` / `AgendaEntry`). -/
structure ScheduleEntry where
  scheduleId : String
  trigger : Trigger
  action : Action
  status : ScheduleStatus
  reason : Option String
  createdAt : String
deriving DecidableEq, Repr

/-- Materialized bus event (`BusEvent` in `event-store.ts`). -/
structure BusEvent where
  eventId : String
  kind : String
  message : String
  sessionId : String
  timestamp : String
deriving DecidableEq, Repr

/-- `normalizeKinds`: normalize `eventKind` to always be an array. -/
def normalizeKinds : EventKinds → List String
  | .one k => [k]
  | .many ks => ks

/-- Trigger type tag (`trigger.type`). -/
inductive TriggerType where
  | time
  | event
deriving DecidableEq, Repr

/-- The `type` discriminant of a trigger. -/
def triggerTypeOf : Trigger → TriggerType
  | .time _ => .time
  | .event _ _ _ => .event

/-!
## `EventStore.readAll`

`readAll` reads the whole JSONL file inside a `try`: the file content is
split on newlines, blank lines are dropped (`.filter(Boolean)`), and every
line is fed to `JSON.parse`.  A missing file *or any line that fails to
parse* lands in the same `catch`, which returns `[]`.  The file content is
modelled as `Option String` (`none` = the read threw, e.g. missing file)
and `JSON.parse` as a `parse` function returning `none` on malformed input.
-/

/-- Character-level `content.trim()`: strip leading and trailing
whitespace. -/
def trimChars (cs : List Char) : List Char :=
  ((cs.dropWhile Char.isWhitespace).reverse.dropWhile Char.isWhitespace).reverse

/-- Character-level `.split("\n")`: split into lines at each newline,
keeping empty segments (which `.filter(Boolean)` later drops). -/
def splitNl (cur : List Char) : List Char → List String
  | [] => [String.mk cur.reverse]
  | c :: rest =>
    if c = '\n' then String.mk cur.reverse :: splitNl [] rest
    else splitNl (c :: cur) rest

/-- `EventStore.readAll`: the whole body runs inside one `try`; if the file
is missing or any retained line fails to parse, the `catch` yields `[]`.
`content.trim().split("\n").filter(Boolean)` is embedded at character
level; `JSON.parse` is the `parse` argument, `none` modelling a throw. -/
def readAll (content : Option String) (parse : String → Option StoreEvent) :
    List StoreEvent :=
  match content with
  | none => []
  | some c =>
    let lines := (splitNl [] (trimChars c.toList)).filter (fun l => l ≠ "")
    if lines.all (fun l => (parse l).isSome) then lines.filterMap parse else []

/-!
## Materialization

`materialize` folds the log into a `Map<string, ScheduleEntry>`, modelled as
an association list in JS-`Map` insertion order.
-/

/-- The entry map: key is the schedule id. -/
abbrev EntryMap := List (String × ScheduleEntry)

/-- `map.set(k, v)`: update in place if the key exists (keeping its
position), append at the end otherwise — JS `Map` insertion-order
semantics. -/
def setEntry : EntryMap → String → ScheduleEntry → EntryMap
  | [], k, v => [(k, v)]
  | p :: rest, k, v =>
    if p.1 == k then (k, v) :: rest else p :: setEntry rest k v

/-- `const e = map.get(k); if (e) e.status = s`: mutate the stored entry's
status in place if the key exists, do nothing otherwise. -/
def setStatus : EntryMap → String → ScheduleStatus → EntryMap
  | [], _, _ => []
  | p :: rest, k, s =>
    if p.1 == k then (p.1, { p.2 with status := s }) :: rest
    else p :: setStatus rest k s

/-- One step of the materializing reducer (the `switch` in `materialize`).
Note `reason: evt.payload.reason || undefined` maps the empty string to
`undefined`. -/
def applyStoreEvent (m : EntryMap) (evt : StoreEvent) : EntryMap :=
  match evt.payload with
  | .created sid trg act rsn _ =>
      setEntry m sid
        { scheduleId := sid, trigger := trg, action := act, status := .pending
          reason := if rsn = "" then none else some rsn, createdAt := evt.timestamp }
  | .cancelled sid _ => setStatus m sid .cancelled
  | .executed sid _ _ _ => setStatus m sid .executed
  | .failed sid _ _ => setStatus m sid .failed
  | .expired sid => setStatus m sid .expired
  | .busEmitted _ _ _ _ => m

/-- The entry map obtained by replaying a whole log. -/
def materializeMap (events : List StoreEvent) : EntryMap :=
  events.foldl applyStoreEvent []

/-- `EventStore.materialize` / the agenda store's `entries()`:
`[...map.values()]`. -/
def materialize (events : List StoreEvent) : List ScheduleEntry :=
  (materializeMap events).map Prod.snd

/-- `EventStore.pending(byType?)`: still-pending entries, optionally
filtered by trigger type. -/
def pending (events : List StoreEvent) (byType : Option TriggerType) :
    List ScheduleEntry :=
  let p := (materialize events).filter (fun e => e.status == .pending)
  match byType with
  | some ty => p.filter (fun e => triggerTypeOf e.trigger == ty)
  | none => p

/-- `EventStore.busEvents`: replay all `bus.emitted` records in log order. -/
def busEvents (events : List StoreEvent) : List BusEvent :=
  events.filterMap (fun e =>
    match e.payload with
    | .busEmitted eid kind msg sid =>
        some { eventId := eid, kind := kind, message := msg, sessionId := sid
               timestamp := e.timestamp }
    | _ => none)

/-- `EventStore.matchingSchedules(newKind)` (the agenda store's
`matchingEntries`): pending event-triggered entries that should fire given a
newly emitted event kind.  `any` fires if the new kind matches any required
kind; `all` additionally requires every required kind to have a bus event
with timestamp `>=` the entry's `createdAt` (string comparison). -/
def matchingSchedules (events : List StoreEvent) (newKind : String) :
    List ScheduleEntry :=
  let pend := pending events (some .event)
  let busHistory := busEvents events
  pend.filter (fun entry =>
    match entry.trigger with
    | .time _ => false
    | .event ek mm _ =>
      let kinds := normalizeKinds ek
      match mm.getD .any with
      | .any => kinds.contains newKind
      | .all =>
        kinds.contains newKind &&
          kinds.all (fun k =>
            busHistory.any (fun b =>
              b.kind == k && decide (entry.createdAt ≤ b.timestamp))))

/-- Lookup in the entry map by key (`map.get(k)`). -/
def lookupEntry : EntryMap → String → Option ScheduleEntry
  | [], _ => none
  | p :: rest, k => if p.1 == k then some p.2 else lookupEntry rest k

/-- Current status of an entry id after replaying a log. -/
def statusOf (events : List StoreEvent) (id : String) : Option ScheduleStatus :=
  (lookupEntry (materializeMap events) id).map ScheduleEntry.status

/-- Does a log payload reference the given schedule id? -/
def StorePayload.refersTo : StorePayload → String → Bool
  | .created sid _ _ _ _, id => sid == id
  | .cancelled sid _, id => sid == id
  | .executed sid _ _ _, id => sid == id
  | .failed sid _ _, id => sid == id
  | .expired sid, id => sid == id
  | .busEmitted _ _ _ _, _ => false

/-- Is this payload a terminal status record (cancelled, executed, failed
or expired) for the given id? -/
def StorePayload.isTerminalFor : StorePayload → String → Bool
  | .cancelled sid _, id => sid == id
  | .executed sid _ _ _, id => sid == id
  | .failed sid _ _, id => sid == id
  | .expired sid, id => sid == id
  | _, _ => false

/-- Is this payload an execution-outcome record (executed or failed) for the
given id?  These are exactly the records the action executor appends for the
entry it is running. -/
def StorePayload.isExecFor : StorePayload → String → Bool
  | .executed sid _ _ _, id => sid == id
  | .failed sid _ _, id => sid == id
  | _, _ => false

/-- Is this payload a `created` record for the given id? -/
def StorePayload.isCreatedFor : StorePayload → String → Bool
  | .created sid _ _ _ _, id => sid == id
  | _, _ => false

/-- Number of terminal status records for an id in a log. -/
def terminalCount (events : List StoreEvent) (id : String) : Nat :=
  (events.filter (fun e => e.payload.isTerminalFor id)).length

/-- Number of execution-outcome (`executed`/`failed`) records for an id. -/
def execCount (events : List StoreEvent) (id : String) : Nat :=
  (events.filter (fun e => e.payload.isExecFor id)).length

/-- Number of `created` records for an id in a log. -/
def createdCount (events : List StoreEvent) (id : String) : Nat :=
  (events.filter (fun e => e.payload.isCreatedFor id)).length

/-!
## Entry-map lemmas
-/

theorem lookupEntry_setEntry_self (m : EntryMap) (k : String) (v : ScheduleEntry) :
    lookupEntry (setEntry m k v) k = some v := by
  induction m with
  | nil => simp [setEntry, lookupEntry]
  | cons p rest ih =>
    by_cases h : p.1 = k
    · simp [setEntry, lookupEntry, h]
    · simp [setEntry, lookupEntry, h, ih]

theorem lookupEntry_setEntry_ne (m : EntryMap) (k k' : String) (v : ScheduleEntry)
    (h : k' ≠ k) : lookupEntry (setEntry m k v) k' = lookupEntry m k' := by
  induction m with
  | nil => simp [setEntry, lookupEntry, Ne.symm h]
  | cons p rest ih =>
    by_cases hp : p.1 = k
    · simp [setEntry, lookupEntry, hp, Ne.symm h]
    · by_cases hp' : p.1 = k'
      · simp [setEntry, lookupEntry, hp, hp', h]
      · simp [setEntry, lookupEntry, hp, hp', ih]

theorem lookupEntry_setStatus_self (m : EntryMap) (k : String) (s : ScheduleStatus) :
    lookupEntry (setStatus m k s) k
      = (lookupEntry m k).map (fun e => { e with status := s }) := by
  induction m with
  | nil => simp [setStatus, lookupEntry]
  | cons p rest ih =>
    by_cases h : p.1 = k
    · simp [setStatus, lookupEntry, h]
    · simp [setStatus, lookupEntry, h, ih]

theorem lookupEntry_setStatus_ne (m : EntryMap) (k k' : String) (s : ScheduleStatus)
    (h : k' ≠ k) : lookupEntry (setStatus m k s) k' = lookupEntry m k' := by
  induction m with
  | nil => simp [setStatus, lookupEntry]
  | cons p rest ih =>
    by_cases hp : p.1 = k
    · simp [setStatus, lookupEntry, hp, Ne.symm h]
    · by_cases hp' : p.1 = k'
      · simp [setStatus, lookupEntry, hp, hp', h]
      · simp [setStatus, lookupEntry, hp, hp', ih]

/-- Replaying one more record only changes the bindings the record refers to. -/
theorem lookupEntry_applyStoreEvent_other (m : EntryMap) (evt : StoreEvent)
    (id : String) (h : evt.payload.refersTo id = false) :
    lookupEntry (applyStoreEvent m evt) id = lookupEntry m id := by
  cases hp : evt.payload with
  | created sid trg act rsn cb =>
    have hne : id ≠ sid := by
      intro he; rw [hp] at h; simp [StorePayload.refersTo, he] at h
    simp [applyStoreEvent, hp, lookupEntry_setEntry_ne _ _ _ _ hne]
  | cancelled sid rsn =>
    have hne : id ≠ sid := by
      intro he; rw [hp] at h; simp [StorePayload.refersTo, he] at h
    simp [applyStoreEvent, hp, lookupEntry_setStatus_ne _ _ _ _ hne]
  | executed sid r t a =>
    have hne : id ≠ sid := by
      intro he; rw [hp] at h; simp [StorePayload.refersTo, he] at h
    simp [applyStoreEvent, hp, lookupEntry_setStatus_ne _ _ _ _ hne]
  | failed sid e t =>
    have hne : id ≠ sid := by
      intro he; rw [hp] at h; simp [StorePayload.refersTo, he] at h
    simp [applyStoreEvent, hp, lookupEntry_setStatus_ne _ _ _ _ hne]
  | expired sid =>
    have hne : id ≠ sid := by
      intro he; rw [hp] at h; simp [StorePayload.refersTo, he] at h
    simp [applyStoreEvent, hp, lookupEntry_setStatus_ne _ _ _ _ hne]
  | busEmitted eid kind msg sid => simp [applyStoreEvent, hp]

theorem materializeMap_append (l₁ l₂ : List StoreEvent) :
    materializeMap (l₁ ++ l₂) = l₂.foldl applyStoreEvent (materializeMap l₁) := by
  simp [materializeMap, List.foldl_append]

theorem foldl_applyStoreEvent_other (l : List StoreEvent) (id : String) :
    ∀ m : EntryMap, (∀ e ∈ l, e.payload.refersTo id = false) →
      lookupEntry (l.foldl applyStoreEvent m) id = lookupEntry m id := by
  induction l with
  | nil => intro m _; rfl
  | cons e rest ih =>
    intro m h
    rw [List.foldl_cons, ih _ (fun x hx => h x (List.mem_cons_of_mem _ hx)),
      lookupEntry_applyStoreEvent_other _ _ _ (h e (List.mem_cons_self _ _))]

/-!
## Well-formedness of the materialized map
-/

/-- Well-formed entry map: keys are distinct and each value's `scheduleId`
equals its key.  `materializeMap` only ever produces such maps. -/
def MapWF (m : EntryMap) : Prop :=
  (m.map Prod.fst).Nodup ∧ ∀ p ∈ m, p.2.scheduleId = p.1

theorem setEntry_eq_update (p : String × ScheduleEntry) (rest : EntryMap)
    (k : String) (v : ScheduleEntry) (hp : p.1 = k) :
    setEntry (p :: rest) k v = (k, v) :: rest := by
  simp [setEntry, hp]

theorem setEntry_eq_skip (p : String × ScheduleEntry) (rest : EntryMap)
    (k : String) (v : ScheduleEntry) (hp : p.1 ≠ k) :
    setEntry (p :: rest) k v = p :: setEntry rest k v := by
  simp [setEntry, hp]

theorem setStatus_eq_update (p : String × ScheduleEntry) (rest : EntryMap)
    (k : String) (s : ScheduleStatus) (hp : p.1 = k) :
    setStatus (p :: rest) k s = (p.1, { p.2 with status := s }) :: rest := by
  simp [setStatus, hp]

theorem setStatus_eq_skip (p : String × ScheduleEntry) (rest : EntryMap)
    (k : String) (s : ScheduleStatus) (hp : p.1 ≠ k) :
    setStatus (p :: rest) k s = p :: setStatus rest k s := by
  simp [setStatus, hp]

theorem mem_keys_setEntry (m : EntryMap) (k x : String) (v : ScheduleEntry)
    (h : x ∈ (setEntry m k v).map Prod.fst) : x = k ∨ x ∈ m.map Prod.fst := by
  induction m with
  | nil =>
    simp only [setEntry, List.map_cons, List.map_nil, List.mem_singleton] at h
    exact Or.inl h
  | cons p rest ih =>
    by_cases hp : p.1 = k
    · rw [setEntry_eq_update p rest k v hp, List.map_cons, List.mem_cons] at h
      rcases h with h1 | h1
      · exact Or.inl h1
      · right; rw [List.map_cons, List.mem_cons]; exact Or.inr h1
    · rw [setEntry_eq_skip p rest k v hp, List.map_cons, List.mem_cons] at h
      rcases h with h1 | h1
      · right; rw [List.map_cons, List.mem_cons]; exact Or.inl h1
      · rcases ih h1 with h2 | h2
        · exact Or.inl h2
        · right; rw [List.map_cons, List.mem_cons]; exact Or.inr h2

theorem mapWF_setEntry (m : EntryMap) (k : String) (v : ScheduleEntry)
    (hv : v.scheduleId = k) (wf : MapWF m) : MapWF (setEntry m k v) := by
  induction m with
  | nil =>
    refine ⟨by simp [setEntry], ?_⟩
    intro p hp
    simp only [setEntry, List.mem_singleton] at hp
    simp [hp, hv]
  | cons p rest ih =>
    obtain ⟨hnd0, hids⟩ := wf
    rw [List.map_cons, List.nodup_cons] at hnd0
    by_cases hp : p.1 = k
    · refine ⟨?_, ?_⟩
      · rw [setEntry_eq_update p rest k v hp, List.map_cons, List.nodup_cons]
        exact ⟨hp ▸ hnd0.1, hnd0.2⟩
      · intro q hq
        rw [setEntry_eq_update p rest k v hp] at hq
        rcases List.mem_cons.mp hq with h1 | h1
        · simp [h1, hv]
        · exact hids q (List.mem_cons_of_mem _ h1)
    · have wfrest : MapWF rest :=
        ⟨hnd0.2, fun q hq => hids q (List.mem_cons_of_mem _ hq)⟩
      obtain ⟨ih1, ih2⟩ := ih wfrest
      refine ⟨?_, ?_⟩
      · rw [setEntry_eq_skip p rest k v hp, List.map_cons, List.nodup_cons]
        refine ⟨fun hmem => ?_, ih1⟩
        rcases mem_keys_setEntry rest k p.1 v hmem with h1 | h1
        · exact hp h1
        · exact hnd0.1 h1
      · intro q hq
        rw [setEntry_eq_skip p rest k v hp] at hq
        rcases List.mem_cons.mp hq with h1 | h1
        · exact h1 ▸ hids p (List.mem_cons_self _ _)
        · exact ih2 q h1

theorem keys_setStatus (m : EntryMap) (k : String) (s : ScheduleStatus) :
    (setStatus m k s).map Prod.fst = m.map Prod.fst := by
  induction m with
  | nil => rfl
  | cons p rest ih =>
    by_cases hp : p.1 = k
    · simp [setStatus, hp]
    · simp [setStatus, hp, ih]

theorem mem_setStatus (m : EntryMap) (k : String) (s : ScheduleStatus)
    (q : String × ScheduleEntry) (hq : q ∈ setStatus m k s) :
    ∃ p ∈ m, q.1 = p.1 ∧ q.2.scheduleId = p.2.scheduleId := by
  induction m with
  | nil => simp [setStatus] at hq
  | cons p rest ih =>
    by_cases hp : p.1 = k
    · rw [setStatus_eq_update p rest k s hp] at hq
      rcases List.mem_cons.mp hq with h1 | h1
      · exact ⟨p, List.mem_cons_self _ _, by simp [h1]⟩
      · exact ⟨q, List.mem_cons_of_mem _ h1, rfl, rfl⟩
    · rw [setStatus_eq_skip p rest k s hp] at hq
      rcases List.mem_cons.mp hq with h1 | h1
      · exact ⟨p, List.mem_cons_self _ _, by simp [h1]⟩
      · obtain ⟨r, hr, h2, h3⟩ := ih h1
        exact ⟨r, List.mem_cons_of_mem _ hr, h2, h3⟩

theorem mapWF_setStatus (m : EntryMap) (k : String) (s : ScheduleStatus)
    (wf : MapWF m) : MapWF (setStatus m k s) := by
  refine ⟨by rw [keys_setStatus]; exact wf.1, ?_⟩
  intro q hq
  obtain ⟨p, hp, h1, h2⟩ := mem_setStatus m k s q hq
  rw [h2, wf.2 p hp, h1]

theorem mapWF_applyStoreEvent (m : EntryMap) (evt : StoreEvent) (wf : MapWF m) :
    MapWF (applyStoreEvent m evt) := by
  cases hp : evt.payload with
  | created sid trg act rsn cb =>
    simp only [applyStoreEvent, hp]
    exact mapWF_setEntry m sid _ rfl wf
  | cancelled sid rsn =>
    simp only [applyStoreEvent, hp]; exact mapWF_setStatus m sid _ wf
  | executed sid r t a =>
    simp only [applyStoreEvent, hp]; exact mapWF_setStatus m sid _ wf
  | failed sid e t =>
    simp only [applyStoreEvent, hp]; exact mapWF_setStatus m sid _ wf
  | expired sid =>
    simp only [applyStoreEvent, hp]; exact mapWF_setStatus m sid _ wf
  | busEmitted eid kind msg sid =>
    simp only [applyStoreEvent, hp]; exact wf

theorem mapWF_foldl (l : List StoreEvent) (m : EntryMap) (wf : MapWF m) :
    MapWF (l.foldl applyStoreEvent m) := by
  induction l generalizing m with
  | nil => exact wf
  | cons e rest ih => exact ih _ (mapWF_applyStoreEvent m e wf)

theorem mapWF_materializeMap (l : List StoreEvent) : MapWF (materializeMap l) :=
  mapWF_foldl l [] ⟨List.nodup_nil, by simp⟩

/-- With distinct keys, the entry found under a key is the only materialized
entry carrying that schedule id. -/
theorem filter_snd_length_of_lookup (m : EntryMap) (A : String) (v : ScheduleEntry)
    (wf : MapWF m) (h : lookupEntry m A = some v) :
    ((m.map Prod.snd).filter (fun e => e.scheduleId == A)).length = 1 := by
  induction m with
  | nil => simp [lookupEntry] at h
  | cons p rest ih =>
    obtain ⟨hnd, hids⟩ := wf
    rw [List.map_cons, List.nodup_cons] at hnd
    have wfrest : MapWF rest := ⟨hnd.2, fun q hq => hids q (List.mem_cons_of_mem _ hq)⟩
    by_cases hp : p.1 = A
    · have hrest : (rest.map Prod.snd).filter (fun e => e.scheduleId == A) = [] := by
        rw [List.filter_eq_nil_iff]
        intro e he
        obtain ⟨q, hq, rfl⟩ := List.mem_map.mp he
        have : q.2.scheduleId = q.1 := hids q (List.mem_cons_of_mem _ hq)
        simp only [beq_iff_eq, this]
        intro hqA
        exact hnd.1 (hp ▸ hqA ▸ List.mem_map_of_mem Prod.fst hq)
      have hhead : p.2.scheduleId = A := (hids p (List.mem_cons_self _ _)).trans hp
      simp [List.filter_cons, hhead, hrest]
    · have h' : lookupEntry rest A = some v := by
        simpa [lookupEntry, hp] using h
      have hhead : ¬ p.2.scheduleId = A := by
        rw [hids p (List.mem_cons_self _ _)]; exact hp
      simp [List.filter_cons, hhead]
      exact ih wfrest h'

/-!
## Claim theorems about the event store
-/

/-- C9 — the materializing reducer treats a duplicate `created` record as
last-write-wins resurrection: whatever precedes it (including the first
`created` and any terminal status record for the same id), after a second
`created` record for id `A` (followed only by records not referencing `A`)
the materialized state holds a single entry for `A` whose trigger, action,
reason and createdAt come from that second record and whose status is reset
to `pending`. -/
theorem materialize_duplicate_created_resurrects
    (l₁ l₂ : List StoreEvent) (A : String) (trg : Trigger) (act : Action)
    (rsn cb ts : String) (h : ∀ e ∈ l₂, e.payload.refersTo A = false) :
    lookupEntry
        (materializeMap (l₁ ++ ⟨ts, .created A trg act rsn cb⟩ :: l₂)) A
      = some { scheduleId := A, trigger := trg, action := act, status := .pending
               reason := if rsn = "" then none else some rsn, createdAt := ts }
    ∧ ((materialize (l₁ ++ ⟨ts, .created A trg act rsn cb⟩ :: l₂)).filter
        (fun e => e.scheduleId == A)).length = 1 := by
  have hsplit : materializeMap (l₁ ++ ⟨ts, .created A trg act rsn cb⟩ :: l₂)
      = l₂.foldl applyStoreEvent
          (applyStoreEvent (materializeMap l₁) ⟨ts, .created A trg act rsn cb⟩) := by
    rw [materializeMap_append, List.foldl_cons]
  have hlook : lookupEntry
      (materializeMap (l₁ ++ ⟨ts, .created A trg act rsn cb⟩ :: l₂)) A
      = some { scheduleId := A, trigger := trg, action := act, status := .pending
               reason := if rsn = "" then none else some rsn, createdAt := ts } := by
    rw [hsplit, foldl_applyStoreEvent_other l₂ A _ h]
    simp only [applyStoreEvent]
    exact lookupEntry_setEntry_self _ _ _
  refine ⟨hlook, ?_⟩
  exact filter_snd_length_of_lookup _ A _
    (mapWF_materializeMap _) hlook

/-- Concrete instance of the duplicate-`created` resurrection: the log holds
created(a), executed(a), created(a) and the final state of `a` is the second
creation, pending again. -/
theorem materialize_duplicate_created_resurrects_witness :
    (∀ e ∈ ([] : List StoreEvent), e.payload.refersTo "a" = false)
    ∧ lookupEntry
        (materializeMap
          ([⟨"1", .created "a" (.time "0") (.emit "x" "m") "r1" "user"⟩,
            ⟨"2", .executed "a" "success" none none⟩]
            ++ ⟨"3", .created "a" (.time "9") (.emit "y" "n") "r2" "user"⟩ :: [])) "a"
      = some { scheduleId := "a", trigger := .time "9", action := .emit "y" "n"
               status := .pending, reason := some "r2", createdAt := "3" } := by
  refine ⟨by simp, ?_⟩
  have := (materialize_duplicate_created_resurrects
    [⟨"1", .created "a" (.time "0") (.emit "x" "m") "r1" "user"⟩,
     ⟨"2", .executed "a" "success" none none⟩] [] "a"
    (.time "9") (.emit "y" "n") "r2" "user" "3" (by simp)).1
  simpa using this

/-!
## Claim C3 — `readAll` and a malformed log line
-/

/-- A sample well-formed record for exercising `readAll`. -/
def sampleCreated : StoreEvent :=
  ⟨"1", .created "a" (.time "0") (.emit "x" "m") "" "user"⟩

/-- A line decoder that accepts exactly the line `ok` (standing in for
`JSON.parse`, which throws on anything else). -/
def parseOkOnly (line : String) : Option StoreEvent :=
  if line = "ok" then some sampleCreated else none

/-- C3 — what `readAll` actually does at bootstrap: a missing file and an
empty file both give the empty cache (as the claim says), but a log
containing a malformed line ALSO gives the empty cache, silently: the
`catch` swallows the parse error, no fatal bootstrap error is surfaced, and
the well-formed lines of the log are dropped.  The spec requires a
malformed line to be a fatal bootstrap error, so this records the code's
divergent behavior at the failing input. -/
theorem readAll_swallows_corrupt_line :
    readAll none parseOkOnly = []
    ∧ readAll (some "") parseOkOnly = []
    ∧ readAll (some "ok") parseOkOnly = [sampleCreated]
    ∧ readAll (some "ok\nnot json") parseOkOnly = [] := by
  refine ⟨rfl, by decide, by decide, by decide⟩

/-!
## Claim C1 — convergence matching
-/

/-- C1 — for a pending event-triggered entry, `matchingSchedules newKind`
includes the entry, in `any` mode, iff `newKind` is among the entry's
required kinds; in `all` mode, iff `newKind` is among the required kinds
and every required kind has at least one bus event whose timestamp is
`>=` the entry's `createdAt` (timestamps compared as strings, exactly as
the code compares them). -/
theorem matchingSchedules_mem_iff (events : List StoreEvent) (newKind : String)
    (entry : ScheduleEntry) (ek : EventKinds) (mm : Option MatchMode)
    (exp : Option String)
    (hp : entry ∈ pending events (some .event))
    (ht : entry.trigger = .event ek mm exp) :
    entry ∈ matchingSchedules events newKind ↔
      ((mm.getD .any = .any ∧ newKind ∈ normalizeKinds ek) ∨
       (mm.getD .any = .all ∧ newKind ∈ normalizeKinds ek ∧
         ∀ k ∈ normalizeKinds ek, ∃ b ∈ busEvents events,
           b.kind = k ∧ entry.createdAt ≤ b.timestamp)) := by
  unfold matchingSchedules
  rw [List.mem_filter]
  simp only [hp, true_and, ht]
  cases hmode : mm.getD MatchMode.any with
  | any =>
    simp [List.contains, List.elem_iff]
  | all =>
    simp only [Bool.and_eq_true, List.all_eq_true, List.any_eq_true,
      beq_iff_eq, decide_eq_true_eq, List.contains, List.elem_iff]
    constructor
    · rintro ⟨h1, h2⟩
      refine Or.inr ⟨trivial, h1, ?_⟩
      intro k hk
      obtain ⟨b, hb, hbk, hble⟩ := h2 k hk
      exact ⟨b, hb, hbk, hble⟩
    · rintro (⟨h1, _⟩ | ⟨_, h1, h2⟩)
      · cases h1
      · refine ⟨h1, ?_⟩
        intro k hk
        obtain ⟨b, hb, hbk, hble⟩ := h2 k hk
        exact ⟨b, hb, hbk, hble⟩

/-- Concrete instance of the convergence-matching characterization: a
pending entry on kinds A, B in `any` mode is matched by a newly emitted
`A`. -/
theorem matchingSchedules_mem_iff_witness :
    ({ scheduleId := "a", trigger := .event (.many ["A", "B"]) none none
       action := .emit "x" "m", status := .pending, reason := none
       createdAt := "1" } : ScheduleEntry)
      ∈ matchingSchedules
          [⟨"1", .created "a" (.event (.many ["A", "B"]) none none) (.emit "x" "m") "" "user"⟩]
          "A" := by
  refine (matchingSchedules_mem_iff
    [⟨"1", .created "a" (.event (.many ["A", "B"]) none none) (.emit "x" "m") "" "user"⟩]
    "A" _ (.many ["A", "B"]) none none (by decide) rfl).mpr ?_
  exact Or.inl ⟨rfl, by decide⟩

/-!
## Safety rails (`safety.ts`, agenda variant)
-/

/-- `SafetyConfig` of the agenda safety module. -/
structure SafetyConfig where
  maxPendingPerSession : Nat
  maxPendingProject : Nat
  minIntervalSeconds : Nat
  maxPendingPerEventKind : Nat
  maxBusEmitsPerSessionPerHour : Nat
  maxCascadeDepth : Nat
  paused : Bool
deriving DecidableEq, Repr

/-- `DEFAULT_SAFETY`. -/
def DEFAULT_SAFETY : SafetyConfig :=
  { maxPendingPerSession := 10, maxPendingProject := 30, minIntervalSeconds := 60
    maxPendingPerEventKind := 5, maxBusEmitsPerSessionPerHour := 30
    maxCascadeDepth := 8, paused := false }

/-- A structured safety violation. -/
structure SafetyViolation where
  rule : String
  message : String
deriving DecidableEq, Repr

/-- `pauseViolation`: a violation iff the agenda is paused. -/
def pauseViolation (config : SafetyConfig) : Option SafetyViolation :=
  if config.paused then some ⟨"paused", "Agenda is paused."⟩ else none

/-- `validateCreate`: admission-time checks, in source order — project cap,
per-session cap (command actions only), minimum spacing between pending
time triggers, and the per-event-kind cap.  `new Date(s).getTime()` is the
`parseMs` argument. -/
def validateCreate (events : List StoreEvent) (action : Action) (trigger : Trigger)
    (config : SafetyConfig) (parseMs : String → Int) : Option SafetyViolation :=
  let pend := pending events none
  if decide (pend.length ≥ config.maxPendingProject) then
    some ⟨"max_pending_project",
      "Project pending limit reached (" ++ toString config.maxPendingProject ++ ")."⟩
  else if (match action with
    | .command _ _ sid =>
      decide ((pend.filter (fun e =>
        match e.action with
        | .command _ _ s => s == sid
        | _ => false)).length ≥ config.maxPendingPerSession)
    | _ => false : Bool) then
    some ⟨"max_pending_session",
      "Session pending limit reached (" ++ toString config.maxPendingPerSession ++ ")."⟩
  else if (match trigger with
    | .time at1 =>
      pend.any (fun e =>
        match e.trigger with
        | .time at2 =>
          decide ((parseMs at2 - parseMs at1).natAbs < config.minIntervalSeconds * 1000)
        | _ => false)
    | _ => false : Bool) then
    some ⟨"min_interval",
      "Another item is within " ++ toString config.minIntervalSeconds ++ "s of this time."⟩
  else
    match trigger with
    | .event ks _ _ =>
      match (normalizeKinds ks).find? (fun kind =>
        decide ((pend.filter (fun e =>
          match e.trigger with
          | .event ek2 _ _ => (normalizeKinds ek2).contains kind
          | _ => false)).length ≥ config.maxPendingPerEventKind)) with
      | some kind =>
        some ⟨"max_pending_event_kind",
          "Too many pending items for event kind " ++ kind ++ " ("
            ++ toString config.maxPendingPerEventKind ++ ")."⟩
      | none => none
    | _ => none

/-!
## Plugin poll loop (`plugin.ts`)
-/

/-- Environment of externals: the command-execution collaborator's outcome
per agenda id, and `new Date(s).getTime()`. -/
structure Env where
  commandOk : String → Bool
  parseMs : String → Int

/-- `generateId(prefix)`: fresh ids drawn from a counter (modelling
`randomUUID` uniqueness). -/
def genId (pre : String) (n : Nat) : String :=
  pre ++ "_" ++ toString n

/-- The idempotent task queue: `agendaId -> originating bus-event kind
(or absent)`, in insertion order (a JS `Map`). -/
abbrev Queue := List (String × Option String)

/-- `enqueue`: a no-op when the id is already queued. -/
def enqueue (q : Queue) (agendaId : String) (trig : Option String) : Queue :=
  if q.any (fun p => p.1 == agendaId) then q else q ++ [(agendaId, trig)]

/-- `enqueueMatchingEntries(kind)`. -/
def enqueueMatching (log : List StoreEvent) (q : Queue) (kind : String) : Queue :=
  (matchingSchedules log kind).foldl (fun acc e => enqueue acc e.scheduleId (some kind)) q

/-- The records `executeAction` appends for one entry, and the emitted
kinds it returns.  `ok` is the command collaborator's outcome; `newId`,
`eid`, `sid2` are the generated ids for a schedule action's new entry, an
emitted bus event and a newly created session. -/
def performAction (log : List StoreEvent) (entry : ScheduleEntry)
    (trig : Option String) (ok : Bool) (newId eid sid2 ts : String) :
    List StoreEvent × List String :=
  match entry.action with
  | .command _ _ sid =>
    if ok then
      ([⟨ts, .executed entry.scheduleId "success" trig
          (some (if sid = "new" then sid2 else sid))⟩], [])
    else
      ([⟨ts, .failed entry.scheduleId "error" trig⟩], [])
  | .emit kind msg =>
    ([⟨ts, .busEmitted eid kind msg "agenda"⟩,
      ⟨ts, .executed entry.scheduleId "emitted" trig none⟩], [kind])
  | .cancel target rsn =>
    let recs :=
      match (materialize log).find? (fun e => e.scheduleId == target) with
      | some t => if t.status = .pending then [⟨ts, StorePayload.cancelled target rsn⟩] else []
      | none => []
    (recs ++ [⟨ts, .executed entry.scheduleId "cancelled-target" trig none⟩], [])
  | .schedule act trg rsn =>
    ([⟨ts, .created newId trg act rsn "agenda"⟩,
      ⟨ts, .executed entry.scheduleId ("created-" ++ newId) trig none⟩], [])

/-- Shared mutable state of the drain machinery: the log (the store's
cache), the task queue, and the id-generation counter. -/
structure DrainState where
  log : List StoreEvent
  queue : Queue
  nextId : Nat
deriving DecidableEq, Repr

/-- `executeAction`: append the action's records, return emitted kinds. -/
def executeAction (env : Env) (now : String) (s : DrainState)
    (entry : ScheduleEntry) (trig : Option String) : DrainState × List String :=
  let out := performAction s.log entry trig (env.commandOk entry.scheduleId)
    (genId "agn" s.nextId) (genId "bus" s.nextId) (genId "ses" s.nextId) now
  ({ s with log := s.log ++ out.1, nextId := s.nextId + 1 }, out.2)

/-- The body of one drain wave: run every batch item whose entry is still
pending (re-reading the cache each time), then enqueue entries matching any
kinds emitted by that item. -/
def processBatch (env : Env) (now : String) :
    List (String × Option String) → DrainState → DrainState
  | [], s => s
  | (id, trig) :: rest, s =>
    match (materialize s.log).find? (fun e => e.scheduleId == id) with
    | none => processBatch env now rest s
    | some entry =>
      if entry.status = .pending then
        let out := executeAction env now s entry trig
        let s2 := { out.1 with
          queue := out.2.foldl (fun q kind => enqueueMatching out.1.log q kind) out.1.queue }
        processBatch env now rest s2
      else processBatch env now rest s

/-- The drain loop: `while (queue.size > 0 && depth < maxCascadeDepth)`,
written with `fuel = maxCascadeDepth - depth`.  Each wave snapshots and
clears the queue, processes the batch, and recurses; the second component
counts executed waves. -/
def drainGo (env : Env) (now : String) : Nat → DrainState → DrainState × Nat
  | 0, s => (s, 0)
  | fuel + 1, s =>
    if s.queue.isEmpty then (s, 0)
    else
      let s1 := processBatch env now s.queue { s with queue := [] }
      let out := drainGo env now fuel s1
      (out.1, out.2 + 1)

/-- `drain()`. -/
def drain (env : Env) (now : String) (config : SafetyConfig) (s : DrainState) :
    DrainState × Nat :=
  drainGo env now config.maxCascadeDepth s

/-- Step 3 of the tick: bus events strictly newer than `lastBusTimestamp`
(ISO strings compared with `>`). -/
def newBusEvents (bus : List BusEvent) (last : String) : List BusEvent :=
  bus.filter (fun e => decide (last < e.timestamp))

/-- The tick's update of `lastBusTimestamp`: the last new event's
timestamp, or unchanged when there are none. -/
def nextLastBusTimestamp (bus : List BusEvent) (last : String) : String :=
  match (newBusEvents bus last).getLast? with
  | some e => e.timestamp
  | none => last

/-- Full plugin state driven by the poll loop. -/
structure TickState where
  log : List StoreEvent
  queue : Queue
  nextId : Nat
  lastBusTimestamp : String
deriving DecidableEq, Repr

/-- One `tick`: pause gate, expire stale event triggers, enqueue due time
triggers, enqueue matches of new bus events, drain. -/
def tick (env : Env) (config : SafetyConfig) (nowMs : Int) (now : String)
    (st : TickState) : TickState :=
  if (pauseViolation config).isSome then st
  else
    let log1 := st.log ++ (pending st.log (some .event)).filterMap (fun e =>
      match e.trigger with
      | .event _ _ (some ex) =>
        if env.parseMs ex ≤ nowMs then some ⟨now, StorePayload.expired e.scheduleId⟩
        else none
      | _ => none)
    let q1 := (pending log1 (some .time)).foldl (fun q e =>
      match e.trigger with
      | .time at1 => if env.parseMs at1 ≤ nowMs then enqueue q e.scheduleId none else q
      | _ => q) st.queue
    let bus := busEvents log1
    let newEv := newBusEvents bus st.lastBusTimestamp
    let last2 := nextLastBusTimestamp bus st.lastBusTimestamp
    let q2 := newEv.foldl (fun q b => enqueueMatching log1 q b.kind) q1
    let out := drain env now config ⟨log1, q2, st.nextId⟩
    ⟨out.1.log, out.1.queue, out.1.nextId, last2⟩

/-!
## Claim C5 — drain termination and the depth cap
-/

theorem drainGo_wave_bound (env : Env) (now : String) :
    ∀ (fuel : Nat) (s : DrainState),
      (drainGo env now fuel s).2 ≤ fuel
      ∧ ((drainGo env now fuel s).1.queue ≠ [] → (drainGo env now fuel s).2 = fuel) := by
  intro fuel
  induction fuel with
  | zero => intro s; exact ⟨Nat.le_refl 0, fun _ => rfl⟩
  | succ fuel ih =>
    intro s
    by_cases hq : s.queue.isEmpty
    · constructor
      · simp [drainGo, hq]
      · intro hne
        rw [show drainGo env now (fuel + 1) s = (s, 0) by simp [drainGo, hq]] at hne ⊢
        exact absurd (List.isEmpty_iff.mp hq) hne
    · have heq : drainGo env now (fuel + 1) s
        = ((drainGo env now fuel (processBatch env now s.queue { s with queue := [] })).1,
           (drainGo env now fuel (processBatch env now s.queue { s with queue := [] })).2 + 1) := by
        simp [drainGo, hq]
      obtain ⟨ih1, ih2⟩ := ih (processBatch env now s.queue { s with queue := [] })
      rw [heq]
      exact ⟨Nat.succ_le_succ ih1, fun hne => by rw [ih2 hne]⟩

/-- C5 — `drain()` always terminates: it executes at most
`maxCascadeDepth` waves (default 8); waves stop as soon as the queue is
empty (a non-empty final queue means the full cap was used); and at fuel
exhaustion the state is returned untouched — every still-queued id remains
queued, neither dropped nor executed. -/
theorem drain_terminates_at_depth_cap (env : Env) (now : String)
    (config : SafetyConfig) (s : DrainState) :
    (drain env now config s).2 ≤ config.maxCascadeDepth
    ∧ ((drain env now config s).1.queue ≠ [] →
        (drain env now config s).2 = config.maxCascadeDepth)
    ∧ DEFAULT_SAFETY.maxCascadeDepth = 8
    ∧ (∀ s2 : DrainState, drainGo env now 0 s2 = (s2, 0)) :=
  ⟨(drainGo_wave_bound env now config.maxCascadeDepth s).1,
   (drainGo_wave_bound env now config.maxCascadeDepth s).2,
   rfl, fun _ => rfl⟩

/-- A fixed environment for concrete runs: the command collaborator always
succeeds and timestamps parse to 0. -/
def sampleEnv : Env := ⟨fun _ => true, fun _ => 0⟩

/-- A two-link emit cascade: `c1` listens for `k1` and emits `k2`;
`c2` listens for `k2` and emits `k3`. -/
def chainLog : List StoreEvent :=
  [⟨"1", .created "c1" (.event (.one "k1") none none) (.emit "k2" "m") "" "user"⟩,
   ⟨"1", .created "c2" (.event (.one "k2") none none) (.emit "k3" "m") "" "user"⟩]

/-- Concrete instance of the depth cap: with `maxCascadeDepth = 1` the
emit cascade leaves `c2` queued after the single allowed wave, and the
wave count equals the cap. -/
theorem drain_terminates_at_depth_cap_witness :
    (drain sampleEnv "2" ⟨10, 30, 60, 5, 30, 1, false⟩
        ⟨chainLog, [("c1", some "k1")], 0⟩).2 = 1 :=
  (drain_terminates_at_depth_cap sampleEnv "2" ⟨10, 30, 60, 5, 30, 1, false⟩
    ⟨chainLog, [("c1", some "k1")], 0⟩).2.1 (by decide)

/-!
## Claim C7 — pause blocks ticks but not admission
-/

theorem validateCreate_rule_cases (events : List StoreEvent) (action : Action)
    (trigger : Trigger) (config : SafetyConfig) (parseMs : String → Int)
    (v : SafetyViolation)
    (h : validateCreate events action trigger config parseMs = some v) :
    v.rule = "max_pending_project" ∨ v.rule = "max_pending_session"
    ∨ v.rule = "min_interval" ∨ v.rule = "max_pending_event_kind" := by
  unfold validateCreate at h
  dsimp only at h
  cases action <;> cases trigger
  all_goals repeat' split at h
  all_goals
    first
      | exact Option.noConfusion h
      | (simp only [Option.some.injEq] at h; subst h; simp)

/-- C7 — while the pause flag is set every tick returns its state
untouched (nothing expired, enqueued, executed or appended), yet admission
is unaffected: `validateCreate` can never return a `paused` violation, so
creating entries remains possible while paused. -/
theorem tick_paused_noop_create_unaffected (config : SafetyConfig) :
    (config.paused = true →
      ∀ (env : Env) (nowMs : Int) (now : String) (st : TickState),
        tick env config nowMs now st = st)
    ∧ (∀ (events : List StoreEvent) (action : Action) (trigger : Trigger)
        (parseMs : String → Int) (v : SafetyViolation),
        validateCreate events action trigger config parseMs = some v →
          v.rule ≠ "paused") := by
  constructor
  · intro h env nowMs now st
    unfold tick
    simp [pauseViolation, h]
  · intro events action trigger parseMs v h
    rcases validateCreate_rule_cases events action trigger config parseMs v h with
      h1 | h1 | h1 | h1 <;> rw [h1] <;> decide

/-- Concrete instance: a paused config leaves a tick's state unchanged,
and admission of a fresh entry under that config reports no violation at
all. -/
theorem tick_paused_noop_create_unaffected_witness :
    tick sampleEnv ⟨10, 30, 60, 5, 30, 8, true⟩ 0 "1" ⟨[], [], 0, "0"⟩ = ⟨[], [], 0, "0"⟩
    ∧ validateCreate [] (.emit "x" "m") (.time "5") ⟨10, 30, 60, 5, 30, 8, true⟩
        (fun _ => 0) = none :=
  ⟨(tick_paused_noop_create_unaffected ⟨10, 30, 60, 5, 30, 8, true⟩).1 rfl
      sampleEnv 0 "1" ⟨[], [], 0, "0"⟩,
   by decide⟩

/-!
## Claim C10 — strict bus-timestamp filtering
-/

/-- C10 — the tick's new-bus-event detection selects exactly the bus events
whose ISO-timestamp string is strictly greater than `lastBusTimestamp`: an
event with timestamp equal to the watermark is never selected, and as long
as the watermark is at or above the plugin start time (true at
initialization, and preserved by the watermark update), no event whose
timestamp is not strictly after the start time is ever selected. -/
theorem newBusEvents_strictly_after (bus : List BusEvent) (last start : String)
    (e : BusEvent) :
    (e ∈ newBusEvents bus last ↔ e ∈ bus ∧ last < e.timestamp)
    ∧ (e.timestamp = last → e ∉ newBusEvents bus last)
    ∧ (start ≤ last →
        start ≤ nextLastBusTimestamp bus last
        ∧ (e ∈ newBusEvents bus last → ¬ e.timestamp ≤ start)) := by
  have hmem : ∀ x : BusEvent, x ∈ newBusEvents bus last ↔ x ∈ bus ∧ last < x.timestamp := by
    intro x
    simp [newBusEvents, List.mem_filter]
  refine ⟨hmem e, ?_, ?_⟩
  · intro heq hin
    have h1 := ((hmem e).mp hin).2
    rw [heq] at h1
    exact lt_irrefl _ h1
  · intro hs
    constructor
    · unfold nextLastBusTimestamp
      cases hl : (newBusEvents bus last).getLast? with
      | none => exact hs
      | some b =>
        have hb : b ∈ newBusEvents bus last := List.mem_of_mem_getLast? hl
        exact le_trans hs (le_of_lt ((hmem b).mp hb).2)
    · intro hin hle
      have h1 := ((hmem e).mp hin).2
      exact absurd (lt_of_le_of_lt (le_trans hle hs) h1) (lt_irrefl _)

/-- Concrete instance: with watermark `"3"`, an event stamped `"3"` is not
selected, one stamped `"4"` is, and the watermark advances to `"4"`. -/
theorem newBusEvents_strictly_after_witness :
    (⟨"b2", "k", "m", "s", "3"⟩ : BusEvent)
        ∉ newBusEvents [⟨"b2", "k", "m", "s", "3"⟩, ⟨"b1", "k", "m", "s", "4"⟩] "3"
    ∧ ¬ (⟨"b1", "k", "m", "s", "4"⟩ : BusEvent).timestamp ≤ "2" := by
  have hiff := newBusEvents_strictly_after
    [⟨"b2", "k", "m", "s", "3"⟩, ⟨"b1", "k", "m", "s", "4"⟩] "3" "2"
    ⟨"b1", "k", "m", "s", "4"⟩
  constructor
  · exact (newBusEvents_strictly_after
      [⟨"b2", "k", "m", "s", "3"⟩, ⟨"b1", "k", "m", "s", "4"⟩] "3" "2"
      ⟨"b2", "k", "m", "s", "3"⟩).2.1 rfl
  · have hmem : (⟨"b1", "k", "m", "s", "4"⟩ : BusEvent) ∈ newBusEvents
        [⟨"b2", "k", "m", "s", "3"⟩, ⟨"b1", "k", "m", "s", "4"⟩] "3" :=
      hiff.1.mpr ⟨by decide, by rw [String.lt_iff_toList_lt]; decide⟩
    exact (hiff.2.2 (by rw [String.le_iff_toList_le]; decide)).2 hmem

/-!
## Status and record-count bookkeeping under appends
-/

theorem execCount_append (l₁ l₂ : List StoreEvent) (X : String) :
    execCount (l₁ ++ l₂) X = execCount l₁ X + execCount l₂ X := by
  simp [execCount, List.filter_append]

theorem terminalCount_append (l₁ l₂ : List StoreEvent) (X : String) :
    terminalCount (l₁ ++ l₂) X = terminalCount l₁ X + terminalCount l₂ X := by
  simp [terminalCount, List.filter_append]

theorem createdCount_append (l₁ l₂ : List StoreEvent) (X : String) :
    createdCount (l₁ ++ l₂) X = createdCount l₁ X + createdCount l₂ X := by
  simp [createdCount, List.filter_append]

theorem statusOf_append_created (log : List StoreEvent) (ts sid : String)
    (trg : Trigger) (act : Action) (rsn cb X : String) :
    statusOf (log ++ [⟨ts, .created sid trg act rsn cb⟩]) X
      = if X = sid then some .pending else statusOf log X := by
  unfold statusOf
  rw [materializeMap_append]
  simp only [List.foldl_cons, List.foldl_nil, applyStoreEvent]
  by_cases h : X = sid
  · subst h; rw [lookupEntry_setEntry_self]; simp
  · rw [lookupEntry_setEntry_ne _ _ _ _ h, if_neg h]

theorem lookup_status_after_setStatus (m : EntryMap) (k X : String)
    (st : ScheduleStatus) :
    (lookupEntry (setStatus m k st) X).map ScheduleEntry.status
      = if X = k then ((lookupEntry m X).map ScheduleEntry.status).map (fun _ => st)
        else (lookupEntry m X).map ScheduleEntry.status := by
  by_cases h : X = k
  · subst h
    rw [lookupEntry_setStatus_self]
    cases lookupEntry m X <;> simp
  · rw [lookupEntry_setStatus_ne _ _ _ _ h, if_neg h]

theorem statusOf_append_cancelled (log : List StoreEvent) (ts sid rsn X : String) :
    statusOf (log ++ [⟨ts, .cancelled sid rsn⟩]) X
      = if X = sid then (statusOf log X).map (fun _ => .cancelled)
        else statusOf log X := by
  unfold statusOf
  rw [materializeMap_append]
  simp only [List.foldl_cons, List.foldl_nil, applyStoreEvent]
  exact lookup_status_after_setStatus _ _ _ _

theorem statusOf_append_executed (log : List StoreEvent) (ts sid r : String)
    (t a : Option String) (X : String) :
    statusOf (log ++ [⟨ts, .executed sid r t a⟩]) X
      = if X = sid then (statusOf log X).map (fun _ => .executed)
        else statusOf log X := by
  unfold statusOf
  rw [materializeMap_append]
  simp only [List.foldl_cons, List.foldl_nil, applyStoreEvent]
  exact lookup_status_after_setStatus _ _ _ _

theorem statusOf_append_failed (log : List StoreEvent) (ts sid err : String)
    (t : Option String) (X : String) :
    statusOf (log ++ [⟨ts, .failed sid err t⟩]) X
      = if X = sid then (statusOf log X).map (fun _ => .failed)
        else statusOf log X := by
  unfold statusOf
  rw [materializeMap_append]
  simp only [List.foldl_cons, List.foldl_nil, applyStoreEvent]
  exact lookup_status_after_setStatus _ _ _ _

theorem statusOf_append_expired (log : List StoreEvent) (ts sid X : String) :
    statusOf (log ++ [⟨ts, .expired sid⟩]) X
      = if X = sid then (statusOf log X).map (fun _ => .expired)
        else statusOf log X := by
  unfold statusOf
  rw [materializeMap_append]
  simp only [List.foldl_cons, List.foldl_nil, applyStoreEvent]
  exact lookup_status_after_setStatus _ _ _ _

theorem statusOf_append_bus (log : List StoreEvent) (ts eid kind msg sid X : String) :
    statusOf (log ++ [⟨ts, .busEmitted eid kind msg sid⟩]) X = statusOf log X := by
  unfold statusOf
  rw [materializeMap_append]
  simp only [List.foldl_cons, List.foldl_nil, applyStoreEvent]

/-- Appending any record that is not a `created` for `X` cannot bring `X`
back to `pending`. -/
theorem notPending_append_one (log : List StoreEvent) (r : StoreEvent) (X : String)
    (hc : r.payload.isCreatedFor X = false)
    (h : statusOf log X ≠ some .pending) :
    statusOf (log ++ [r]) X ≠ some .pending := by
  obtain ⟨ts, p⟩ := r
  cases p with
  | created sid trg act rsn cb =>
    have hsid : ¬ X = sid := by
      intro he
      simp [StorePayload.isCreatedFor, he] at hc
    rw [statusOf_append_created, if_neg hsid]
    exact h
  | cancelled sid rsn =>
    rw [statusOf_append_cancelled]
    split
    · cases statusOf log X <;> simp
    · exact h
  | executed sid r2 t a =>
    rw [statusOf_append_executed]
    split
    · cases statusOf log X <;> simp
    · exact h
  | failed sid err t =>
    rw [statusOf_append_failed]
    split
    · cases statusOf log X <;> simp
    · exact h
  | expired sid =>
    rw [statusOf_append_expired]
    split
    · cases statusOf log X <;> simp
    · exact h
  | busEmitted eid kind msg sid =>
    rw [statusOf_append_bus]
    exact h

theorem notPending_append_list (recs : List StoreEvent) (X : String) :
    ∀ log : List StoreEvent, (∀ r ∈ recs, r.payload.isCreatedFor X = false) →
      statusOf log X ≠ some .pending →
      statusOf (log ++ recs) X ≠ some .pending := by
  induction recs with
  | nil => intro log _ h; simpa using h
  | cons r rs ih =>
    intro log hc h
    rw [show log ++ r :: rs = (log ++ [r]) ++ rs by simp]
    exact ih (log ++ [r]) (fun x hx => hc x (List.mem_cons_of_mem _ hx))
      (notPending_append_one log r X (hc r (List.mem_cons_self _ _)) h)

theorem statusOf_append_executed_self (log : List StoreEvent) (ts sid r : String)
    (t a : Option String) :
    statusOf (log ++ [⟨ts, .executed sid r t a⟩]) sid ≠ some .pending := by
  rw [statusOf_append_executed, if_pos rfl]
  cases statusOf log sid <;> simp

theorem statusOf_append_failed_self (log : List StoreEvent) (ts sid err : String)
    (t : Option String) :
    statusOf (log ++ [⟨ts, .failed sid err t⟩]) sid ≠ some .pending := by
  rw [statusOf_append_failed, if_pos rfl]
  cases statusOf log sid <;> simp

/-!
## `find?` over the materialized list vs map lookup
-/

theorem find_map_snd_eq_lookup (m : EntryMap) (wf : MapWF m) (k : String) :
    (m.map Prod.snd).find? (fun e => e.scheduleId == k) = lookupEntry m k := by
  induction m with
  | nil => rfl
  | cons p rest ih =>
    obtain ⟨hnd, hids⟩ := wf
    rw [List.map_cons, List.nodup_cons] at hnd
    have hpid : p.2.scheduleId = p.1 := hids p (List.mem_cons_self _ _)
    have wfrest : MapWF rest :=
      ⟨hnd.2, fun q hq => hids q (List.mem_cons_of_mem _ hq)⟩
    by_cases hp : p.1 = k
    · have h1 : (p.2.scheduleId == k) = true := by simp [hpid, hp]
      have h2 : (p.1 == k) = true := by simp [hp]
      simp only [List.map_cons, List.find?, h1, h2, lookupEntry, if_true]
    · have h1 : (p.2.scheduleId == k) = false := by simp [hpid, hp]
      have h2 : (p.1 == k) = false := by simp [hp]
      simp only [List.map_cons, List.find?, h1, h2, lookupEntry, if_false]
      exact ih wfrest

theorem find_materialize_eq_lookup (log : List StoreEvent) (k : String) :
    (materialize log).find? (fun e => e.scheduleId == k)
      = lookupEntry (materializeMap log) k :=
  find_map_snd_eq_lookup _ (mapWF_materializeMap log) k

theorem lookup_scheduleId (m : EntryMap) (wf : MapWF m) (k : String)
    (e : ScheduleEntry) (h : lookupEntry m k = some e) : e.scheduleId = k := by
  induction m with
  | nil => exact Option.noConfusion h
  | cons p rest ih =>
    obtain ⟨hnd, hids⟩ := wf
    rw [List.map_cons, List.nodup_cons] at hnd
    have wfrest : MapWF rest :=
      ⟨hnd.2, fun q hq => hids q (List.mem_cons_of_mem _ hq)⟩
    by_cases hp : p.1 = k
    · rw [show lookupEntry (p :: rest) k = some p.2 by simp [lookupEntry, hp]] at h
      rw [← Option.some.injEq] at h
      cases h
      exact (hids p (List.mem_cons_self _ _)).trans hp
    · rw [show lookupEntry (p :: rest) k = lookupEntry rest k by
        simp [lookupEntry, hp]] at h
      exact ih wfrest h

theorem statusOf_eq_find (log : List StoreEvent) (X : String) :
    statusOf log X
      = ((materialize log).find? (fun e => e.scheduleId == X)).map ScheduleEntry.status := by
  rw [find_materialize_eq_lookup]
  rfl

/-!
## What `performAction` appends
-/

/-- The action executor appends exactly one execution-outcome record, for
the entry it runs. -/
theorem performAction_execCount (log : List StoreEvent) (entry : ScheduleEntry)
    (trig : Option String) (ok : Bool) (newId eid sid2 ts X : String) :
    execCount (performAction log entry trig ok newId eid sid2 ts).1 X
      = if entry.scheduleId = X then 1 else 0 := by
  cases ha : entry.action with
  | command c a sid =>
    by_cases hX : entry.scheduleId = X
    · have hb : (entry.scheduleId == X) = true := by simp [hX]
      cases ok <;>
        simp [performAction, ha, execCount, StorePayload.isExecFor, hb, hX, List.filter]
    · have hb : (entry.scheduleId == X) = false := by simp [hX]
      cases ok <;>
        simp [performAction, ha, execCount, StorePayload.isExecFor, hb, hX, List.filter]
  | emit kind msg =>
    by_cases hX : entry.scheduleId = X
    · have hb : (entry.scheduleId == X) = true := by simp [hX]
      simp [performAction, ha, execCount, StorePayload.isExecFor, hb, hX, List.filter]
    · have hb : (entry.scheduleId == X) = false := by simp [hX]
      simp [performAction, ha, execCount, StorePayload.isExecFor, hb, hX, List.filter]
  | cancel tid rsn =>
    have h0 : ∀ recs0 : List StoreEvent,
        recs0 = (match (materialize log).find? (fun e => e.scheduleId == tid) with
          | some t => if t.status = .pending then [⟨ts, StorePayload.cancelled tid rsn⟩] else []
          | none => []) → execCount recs0 X = 0 := by
      intro recs0 hr
      rcases hf : (materialize log).find? (fun e => e.scheduleId == tid) with _ | t <;>
        rw [hf] at hr
      · simp [hr, execCount]
      · by_cases hp : t.status = .pending <;>
          simp [hr, hp, execCount, StorePayload.isExecFor, List.filter]
    simp only [performAction, ha]
    rw [execCount_append, h0 _ rfl]
    by_cases hX : entry.scheduleId = X
    · have hb : (entry.scheduleId == X) = true := by simp [hX]
      simp [execCount, List.filter, StorePayload.isExecFor, hb, hX]
    · have hb : (entry.scheduleId == X) = false := by simp [hX]
      simp [execCount, List.filter, StorePayload.isExecFor, hb, hX]
  | schedule act trg rsn =>
    by_cases hX : entry.scheduleId = X
    · have hb : (entry.scheduleId == X) = true := by simp [hX]
      simp [performAction, ha, execCount, StorePayload.isExecFor, hb, hX, List.filter]
    · have hb : (entry.scheduleId == X) = false := by simp [hX]
      simp [performAction, ha, execCount, StorePayload.isExecFor, hb, hX, List.filter]

/-- Every record the executor appends whose payload is a `created` is for
the freshly generated id. -/
theorem performAction_not_createdFor (log : List StoreEvent) (entry : ScheduleEntry)
    (trig : Option String) (ok : Bool) (newId eid sid2 ts X : String)
    (hX : X ≠ newId) :
    ∀ r ∈ (performAction log entry trig ok newId eid sid2 ts).1,
      r.payload.isCreatedFor X = false := by
  intro r hr
  cases ha : entry.action with
  | command c a sid =>
    simp only [performAction, ha] at hr
    cases ok <;> simp only [Bool.false_eq_true, if_false, if_true,
        List.mem_singleton] at hr <;>
      simp [hr, StorePayload.isCreatedFor]
  | emit kind msg =>
    simp only [performAction, ha, List.mem_cons, List.not_mem_nil, or_false] at hr
    rcases hr with hr | hr <;> simp [hr, StorePayload.isCreatedFor]
  | cancel tid rsn =>
    simp only [performAction, ha, List.mem_append, List.mem_singleton] at hr
    rcases hr with hr | hr
    · rcases hf : (materialize log).find? (fun e => e.scheduleId == tid) with _ | t <;>
        rw [hf] at hr
      · simp at hr
      · by_cases hp : t.status = .pending <;> simp [hp] at hr
        simp [hr, StorePayload.isCreatedFor]
    · simp [hr, StorePayload.isCreatedFor]
  | schedule act trg rsn =>
    simp only [performAction, ha, List.mem_cons, List.not_mem_nil, or_false] at hr
    rcases hr with hr | hr
    · subst hr
      simp [StorePayload.isCreatedFor, Ne.symm hX]
    · simp [hr, StorePayload.isCreatedFor]

/-- After the executor runs an entry, the entry is no longer pending: the
last appended record is its execution outcome. -/
theorem statusOf_after_performAction (log : List StoreEvent) (entry : ScheduleEntry)
    (trig : Option String) (ok : Bool) (newId eid sid2 ts : String) :
    statusOf (log ++ (performAction log entry trig ok newId eid sid2 ts).1)
        entry.scheduleId
      ≠ some .pending := by
  cases ha : entry.action with
  | command c a sid =>
    cases ok
    · simp only [performAction, ha, Bool.false_eq_true, if_false]
      exact statusOf_append_failed_self _ _ _ _ _
    · simp only [performAction, ha, if_true]
      exact statusOf_append_executed_self _ _ _ _ _ _
  | emit kind msg =>
    simp only [performAction, ha]
    rw [show log ++ [(⟨ts, .busEmitted eid kind msg "agenda"⟩ : StoreEvent),
        ⟨ts, .executed entry.scheduleId "emitted" trig none⟩]
      = (log ++ [⟨ts, .busEmitted eid kind msg "agenda"⟩])
        ++ [⟨ts, .executed entry.scheduleId "emitted" trig none⟩] by simp]
    exact statusOf_append_executed_self _ _ _ _ _ _
  | cancel tid rsn =>
    simp only [performAction, ha]
    rw [show log ++ ((match (materialize log).find? (fun e => e.scheduleId == tid) with
        | some t => if t.status = .pending then [⟨ts, StorePayload.cancelled tid rsn⟩] else []
        | none => [])
        ++ [⟨ts, .executed entry.scheduleId "cancelled-target" trig none⟩])
      = (log ++ (match (materialize log).find? (fun e => e.scheduleId == tid) with
        | some t => if t.status = .pending then [⟨ts, StorePayload.cancelled tid rsn⟩] else []
        | none => []))
        ++ [⟨ts, .executed entry.scheduleId "cancelled-target" trig none⟩] by simp]
    exact statusOf_append_executed_self _ _ _ _ _ _
  | schedule act trg rsn =>
    simp only [performAction, ha]
    rw [show log ++ [(⟨ts, .created newId trg act rsn "agenda"⟩ : StoreEvent),
        ⟨ts, .executed entry.scheduleId ("created-" ++ newId) trig none⟩]
      = (log ++ [⟨ts, .created newId trg act rsn "agenda"⟩])
        ++ [⟨ts, .executed entry.scheduleId ("created-" ++ newId) trig none⟩] by simp]
    exact statusOf_append_executed_self _ _ _ _ _ _

/-!
## Drain-wave preservation lemmas
-/

/-- Once an entry is out of `pending`, a drain wave neither executes it
again nor brings it back: its execution-outcome count and non-pending
status are preserved (fresh generated ids never collide with it). -/
theorem processBatch_preserves_done (env : Env) (now : String) (X : String)
    (hg : ∀ n : Nat, genId "agn" n ≠ X) :
    ∀ (batch : List (String × Option String)) (s : DrainState),
      statusOf s.log X ≠ some .pending →
      statusOf (processBatch env now batch s).log X ≠ some .pending
      ∧ execCount (processBatch env now batch s).log X = execCount s.log X := by
  intro batch
  induction batch with
  | nil => intro s h; exact ⟨h, rfl⟩
  | cons it rest ih =>
    obtain ⟨id, trig⟩ := it
    intro s h
    cases hf : (materialize s.log).find? (fun e => e.scheduleId == id) with
    | none =>
      simpa only [processBatch, hf] using ih s h
    | some entry =>
      by_cases hp : entry.status = .pending
      · have hid : entry.scheduleId = id := by
          have := List.find?_some hf
          simpa using this
        have hstat : statusOf s.log id = some .pending := by
          rw [statusOf_eq_find, hf]
          simp [hp]
        have hidX : entry.scheduleId ≠ X := by
          intro he
          have hXid : X = id := by rw [← he, hid]
          exact h (by rw [hXid]; exact hstat)
        have hrecs := performAction_not_createdFor s.log entry trig
          (env.commandOk entry.scheduleId) (genId "agn" s.nextId)
          (genId "bus" s.nextId) (genId "ses" s.nextId) now X
          (fun he => hg s.nextId he.symm)
        have hnp : statusOf ((executeAction env now s entry trig).1).log X
            ≠ some .pending :=
          notPending_append_list _ X s.log hrecs h
        have hcount : execCount ((executeAction env now s entry trig).1).log X
            = execCount s.log X := by
          rw [show ((executeAction env now s entry trig).1).log
              = s.log ++ (performAction s.log entry trig (env.commandOk entry.scheduleId)
                (genId "agn" s.nextId) (genId "bus" s.nextId) (genId "ses" s.nextId) now).1
              from rfl,
            execCount_append, performAction_execCount, if_neg hidX, Nat.add_zero]
        simp only [processBatch, hf, hp, if_true]
        refine ⟨(ih _ ?_).1, (ih _ ?_).2.trans hcount⟩ <;> exact hnp
      · simpa only [processBatch, hf, hp, if_false] using ih s h

/-- `drainGo` preserves a terminalized entry across all remaining waves. -/
theorem drainGo_preserves_done (env : Env) (now : String) (X : String)
    (hg : ∀ n : Nat, genId "agn" n ≠ X) :
    ∀ (fuel : Nat) (s : DrainState),
      statusOf s.log X ≠ some .pending →
      statusOf (drainGo env now fuel s).1.log X ≠ some .pending
      ∧ execCount (drainGo env now fuel s).1.log X = execCount s.log X := by
  intro fuel
  induction fuel with
  | zero => intro s h; exact ⟨h, rfl⟩
  | succ fuel ih =>
    intro s h
    by_cases hq : s.queue.isEmpty
    · rw [show drainGo env now (fuel + 1) s = (s, 0) by simp [drainGo, hq]]
      exact ⟨h, rfl⟩
    · obtain ⟨hw1, hw2⟩ :=
        processBatch_preserves_done env now X hg s.queue { s with queue := [] } h
      obtain ⟨ih1, ih2⟩ := ih _ hw1
      rw [show drainGo env now (fuel + 1) s
          = ((drainGo env now fuel
              (processBatch env now s.queue { s with queue := [] })).1,
             (drainGo env now fuel
              (processBatch env now s.queue { s with queue := [] })).2 + 1) by
        simp [drainGo, hq]]
      exact ⟨ih1, by rw [ih2, hw2]⟩

/-- A drain wave appends execution-outcome records only for ids in its
batch. -/
theorem processBatch_execCount_outside (env : Env) (now : String) :
    ∀ (batch : List (String × Option String)) (s : DrainState) (X : String),
      X ∉ batch.map Prod.fst →
      execCount (processBatch env now batch s).log X = execCount s.log X := by
  intro batch
  induction batch with
  | nil => intro s X _; rfl
  | cons it rest ih =>
    obtain ⟨id, trig⟩ := it
    intro s X hX
    rw [List.map_cons, List.mem_cons] at hX
    push_neg at hX
    cases hf : (materialize s.log).find? (fun e => e.scheduleId == id) with
    | none =>
      simpa only [processBatch, hf] using ih s X hX.2
    | some entry =>
      by_cases hp : entry.status = .pending
      · have hid : entry.scheduleId = id := by
          have := List.find?_some hf
          simpa using this
        have hne : entry.scheduleId ≠ X := by
          intro he
          exact hX.1 (by rw [← he, hid])
        have hcount : execCount ((executeAction env now s entry trig).1).log X
            = execCount s.log X := by
          rw [show ((executeAction env now s entry trig).1).log
              = s.log ++ (performAction s.log entry trig (env.commandOk entry.scheduleId)
                (genId "agn" s.nextId) (genId "bus" s.nextId) (genId "ses" s.nextId) now).1
              from rfl,
            execCount_append, performAction_execCount, if_neg hne, Nat.add_zero]
        simp only [processBatch, hf, hp, if_true]
        exact (ih _ X hX.2).trans hcount
      · simpa only [processBatch, hf, hp, if_false] using ih s X hX.2

/-!
## Claim C6 — idempotent queue admission, exactly-once execution
-/

/-- C6 — queue admission is idempotent: enqueuing an id already present
(with any triggering kind) leaves the queue unchanged; and an entry
enqueued twice before a drain consumes it is executed exactly once — the
whole drain (all cascade waves included) appends exactly one
execution-outcome record for it.  Fresh generated ids are assumed not to
collide with the entry (`randomUUID` uniqueness). -/
theorem enqueue_idempotent_exactly_once (q : Queue) (id : String)
    (k k' : Option String) (env : Env) (now : String) (config : SafetyConfig)
    (log : List StoreEvent) (n0 : Nat) :
    (id ∈ q.map Prod.fst → enqueue q id k' = q)
    ∧ (statusOf log id = some .pending →
       (∀ n : Nat, genId "agn" n ≠ id) →
       1 ≤ config.maxCascadeDepth →
       execCount (drain env now config
           ⟨log, enqueue (enqueue [] id k) id k', n0⟩).1.log id
         = execCount log id + 1) := by
  constructor
  · intro hmem
    obtain ⟨p, hp, hfst⟩ := List.mem_map.mp hmem
    have : q.any (fun p => p.1 == id) = true :=
      List.any_eq_true.mpr ⟨p, hp, by simp [hfst]⟩
    simp [enqueue, this]
  · intro hst hg hd
    have hq : enqueue (enqueue [] id k) id k' = [(id, k)] := by
      simp [enqueue]
    rw [hq]
    obtain ⟨m, hm⟩ : ∃ m, config.maxCascadeDepth = m + 1 :=
      ⟨config.maxCascadeDepth - 1, by omega⟩
    unfold drain
    rw [hm]
    have hqs : (({ log := log, queue := [(id, k)], nextId := n0 } : DrainState)).queue.isEmpty
        = false := by rfl
    rw [show drainGo env now (m + 1) ⟨log, [(id, k)], n0⟩
        = ((drainGo env now m
            (processBatch env now [(id, k)] ⟨log, [], n0⟩)).1,
           (drainGo env now m
            (processBatch env now [(id, k)] ⟨log, [], n0⟩)).2 + 1) by
      simp [drainGo, hqs]]
    -- wave 1 executes the entry exactly once
    obtain ⟨entry, hf, hp⟩ :
        ∃ entry, (materialize log).find? (fun e => e.scheduleId == id) = some entry
          ∧ entry.status = .pending := by
      rcases hfind : (materialize log).find? (fun e => e.scheduleId == id) with _ | e
      · rw [statusOf_eq_find, hfind] at hst
        exact Option.noConfusion hst
      · refine ⟨e, hfind, ?_⟩
        rw [statusOf_eq_find, hfind] at hst
        simpa using hst
    have hid : entry.scheduleId = id := by
      have := List.find?_some hf
      simpa using this
    have hwave : processBatch env now [(id, k)] (⟨log, [], n0⟩ : DrainState)
        = { log := log ++ (performAction log entry k (env.commandOk entry.scheduleId)
              (genId "agn" n0) (genId "bus" n0) (genId "ses" n0) now).1,
            queue := (performAction log entry k (env.commandOk entry.scheduleId)
              (genId "agn" n0) (genId "bus" n0) (genId "ses" n0) now).2.foldl
                (fun q2 kind => enqueueMatching
                  (log ++ (performAction log entry k (env.commandOk entry.scheduleId)
                    (genId "agn" n0) (genId "bus" n0) (genId "ses" n0) now).1) q2 kind) [],
            nextId := n0 + 1 } := by
      simp only [processBatch, hf, hp, if_true, executeAction]
    rw [hwave]
    have hnp : statusOf (log ++ (performAction log entry k (env.commandOk entry.scheduleId)
        (genId "agn" n0) (genId "bus" n0) (genId "ses" n0) now).1) id ≠ some .pending := by
      rw [← hid]
      exact statusOf_after_performAction _ _ _ _ _ _ _ _
    obtain ⟨_, hpres⟩ := drainGo_preserves_done env now id hg m
      { log := log ++ (performAction log entry k (env.commandOk entry.scheduleId)
          (genId "agn" n0) (genId "bus" n0) (genId "ses" n0) now).1,
        queue := (performAction log entry k (env.commandOk entry.scheduleId)
          (genId "agn" n0) (genId "bus" n0) (genId "ses" n0) now).2.foldl
            (fun q2 kind => enqueueMatching
              (log ++ (performAction log entry k (env.commandOk entry.scheduleId)
                (genId "agn" n0) (genId "bus" n0) (genId "ses" n0) now).1) q2 kind) [],
        nextId := n0 + 1 } hnp
    rw [hpres]
    rw [execCount_append, performAction_execCount, if_pos hid]

/-- Concrete instance: a pending entry double-enqueued before the drain is
executed exactly once. -/
theorem enqueue_idempotent_exactly_once_witness :
    execCount (drain sampleEnv "2" DEFAULT_SAFETY
        ⟨[⟨"1", .created "w" (.time "0") (.emit "X" "m") "" "user"⟩],
         enqueue (enqueue [] "w" none) "w" none, 0⟩).1.log "w"
      = execCount [⟨"1", .created "w" (.time "0") (.emit "X" "m") "" "user"⟩] "w" + 1 := by
  refine (enqueue_idempotent_exactly_once [] "w" none none sampleEnv "2" DEFAULT_SAFETY
    [⟨"1", .created "w" (.time "0") (.emit "X" "m") "" "user"⟩] 0).2 (by decide) ?_ (by decide)
  intro n h
  have hlen := congrArg String.length h
  rw [genId, String.length_append] at hlen
  rw [show (("agn" : String) ++ "_").length = 4 from rfl,
    show ("w" : String).length = 1 from rfl] at hlen
  omega

/-!
## Claim C8 — the Schedule action and the current wave
-/

/-- C8 (amended) — executing a Schedule action appends exactly a `created`
record for the brand-new id and an `executed` record for the invoking
entry, returns no emitted kinds (so the drain's cascade step enqueues
nothing on its account) and leaves the queue untouched; and a drain wave
never appends an execution-outcome record for an id outside its batch, so
the new entry is not executed by the wave that created it.  (It can,
however, be enqueued later in the same wave by a sibling emit action — see
the counterexample — so "must wait for a future tick" does not hold.) -/
theorem scheduleAction_appends_no_self_enqueue
    (env : Env) (now : String) (s : DrainState) (entry : ScheduleEntry)
    (trig : Option String) (act : Action) (trg : Trigger) (rsn : String)
    (ha : entry.action = .schedule act trg rsn) :
    ((executeAction env now s entry trig).2 = []
     ∧ (executeAction env now s entry trig).1.log
        = s.log ++ [⟨now, .created (genId "agn" s.nextId) trg act rsn "agenda"⟩,
            ⟨now, .executed entry.scheduleId ("created-" ++ genId "agn" s.nextId) trig none⟩]
     ∧ (executeAction env now s entry trig).1.queue = s.queue)
    ∧ ∀ (batch : List (String × Option String)) (s2 : DrainState) (X : String),
        X ∉ batch.map Prod.fst →
        execCount (processBatch env now batch s2).log X = execCount s2.log X := by
  refine ⟨⟨?_, ?_, ?_⟩, processBatch_execCount_outside env now⟩ <;>
    simp [executeAction, performAction, ha]

/-- Concrete instance of the amended claim: a schedule action emits no
cascade kinds and appends exactly the created/executed pair. -/
theorem scheduleAction_appends_no_self_enqueue_witness :
    (executeAction sampleEnv "2" ⟨[], [], 0⟩
        ⟨"a", .time "0", .schedule (.command "c" "" "s") (.event (.one "X") none none) "r",
         .pending, none, "1"⟩ none).2 = [] :=
  (scheduleAction_appends_no_self_enqueue sampleEnv "2" ⟨[], [], 0⟩
    ⟨"a", .time "0", .schedule (.command "c" "" "s") (.event (.one "X") none none) "r",
     .pending, none, "1"⟩ none (.command "c" "" "s") (.event (.one "X") none none) "r"
    rfl).1.1

/-- Entry `a` schedules a new event-triggered entry; entry `b` emits the
kind that new entry listens for, in the same wave. -/
def c8Log : List StoreEvent :=
  [⟨"1", .created "a" (.time "0")
      (.schedule (.command "c" "" "s") (.event (.one "X") none none) "r") "" "user"⟩,
   ⟨"1", .created "b" (.time "0") (.emit "X" "m") "" "user"⟩]

/-- C8 is violated as stated: when a sibling emit action runs later in the
same wave, the entry created by a Schedule action IS added to the queue in
the current wave (`agn_0` is queued by the wave that created it) and IS
executed by the next wave of the same drain — without waiting for any
future tick's due/match evaluation. -/
theorem scheduleAction_fires_within_same_drain :
    ((processBatch sampleEnv "2" [("a", none), ("b", none)]
        ⟨c8Log, [], 0⟩).queue.map Prod.fst = ["agn_0"])
    ∧ execCount c8Log "agn_0" = 0
    ∧ execCount (drain sampleEnv "2" DEFAULT_SAFETY
        ⟨c8Log, [("a", none), ("b", none)], 0⟩).1.log "agn_0" = 1 := by
  refine ⟨by decide, by decide, by decide⟩

/-!
## Claim C2 — terminal status records across every producible log

The system's appends are modelled as atomic operations on the shared log:
entry creation via the create tool, the cancel tool, the emit tool, one
expiry append of a tick's step 1, and one drain-iteration of one queued
entry (the pending guard plus `executeAction`'s appends).  Generated ids
(`randomUUID`) are modelled as explicit op data guarded to be fresh.
Every log the sequential system produces is `runOps ops` for some op list.
-/

/-- A `created` record whose action cancels the created entry itself. -/
def StorePayload.selfCancel : StorePayload → Bool
  | .created sid _ act _ _ =>
    (match act with
     | .cancel tid _ => tid == sid
     | _ => false)
  | _ => false

/-- The atomic log-mutating operations of the system. -/
inductive Op where
  | createTool (id : String) (trigger : Trigger) (action : Action) (reason ts : String)
  | cancelTool (id reason ts : String)
  | emitTool (eid kind msg sid ts : String)
  | expireStep (id ts : String)
  | execStep (id : String) (trig : Option String) (ok : Bool) (newId eid sid2 ts : String)

/-- One operation against the log, with the guards the code performs
(current status checked just before each mutation) and the freshness of
generated ids as a side condition. -/
def applyOp (log : List StoreEvent) : Op → List StoreEvent
  | .createTool id trg act rsn ts =>
    if createdCount log id = 0 then
      log ++ [⟨ts, .created id trg act rsn "assistant"⟩]
    else log
  | .cancelTool id rsn ts =>
    match statusOf log id with
    | some .pending => log ++ [⟨ts, .cancelled id rsn⟩]
    | _ => log
  | .emitTool eid kind msg sid ts => log ++ [⟨ts, .busEmitted eid kind msg sid⟩]
  | .expireStep id ts =>
    match (materialize log).find? (fun e => e.scheduleId == id) with
    | some e =>
      match e.trigger with
      | .event _ _ (some _) =>
        if e.status = .pending then log ++ [⟨ts, .expired id⟩] else log
      | _ => log
    | none => log
  | .execStep id trig ok newId eid sid2 ts =>
    match (materialize log).find? (fun e => e.scheduleId == id) with
    | some entry =>
      if (decide (entry.status = .pending)
          && (match entry.action with
              | .schedule _ _ _ => decide (createdCount log newId = 0)
              | _ => true) : Bool) then
        log ++ (performAction log entry trig ok newId eid sid2 ts).1
      else log
    | none => log

/-- A log the system can produce from empty. -/
def runOps (ops : List Op) : List StoreEvent :=
  ops.foldl applyOp []

/-- C2 is violated as stated: an entry whose cancel action targets its own
id receives TWO terminal status records in one execution — the cancel
branch appends `cancelled` for the (pending) target, which is the entry
itself, and the executor then appends its `executed` record — and the
entry's status even moves cancelled -> executed, out of a terminal state.
The log below is produced by creating such an entry and draining it once
its time trigger is due. -/
theorem terminal_at_most_once_counterexample :
    terminalCount (runOps
        [.createTool "A" (.time "0") (.cancel "A" "loop") "" "1",
         .execStep "A" none true "n" "e" "s" "2"]) "A" = 2
    ∧ statusOf (runOps
        [.createTool "A" (.time "0") (.cancel "A" "loop") "" "1",
         .execStep "A" none true "n" "e" "s" "2"]) "A" = some .executed
    ∧ runOps
        [.createTool "A" (.time "0") (.cancel "A" "loop") "" "1",
         .execStep "A" none true "n" "e" "s" "2"]
      = [⟨"1", .created "A" (.time "0") (.cancel "A" "loop") "" "assistant"⟩,
         ⟨"2", .cancelled "A" "loop"⟩,
         ⟨"2", .executed "A" "cancelled-target" none none⟩] := by
  refine ⟨by decide, by decide, by decide⟩

/-!
## The amended at-most-one-terminal invariant
-/

/-- An id with no `created` record has no materialized entry. -/
theorem createdCount_zero_statusOf_none (log : List StoreEvent) (X : String)
    (h : createdCount log X = 0) : statusOf log X = none := by
  induction log using List.reverseRecOn with
  | nil => rfl
  | append_singleton l r ih =>
    rw [createdCount_append] at h
    have hl : createdCount l X = 0 := by omega
    have hr : createdCount [r] X = 0 := by omega
    obtain ⟨ts, p⟩ := r
    cases p with
    | created sid trg act rsn cb =>
      have hsid : ¬ X = sid := by
        intro he
        simp [createdCount, List.filter, StorePayload.isCreatedFor, he] at hr
      rw [statusOf_append_created, if_neg hsid]
      exact ih hl
    | cancelled sid rsn =>
      rw [statusOf_append_cancelled, ih hl]
      split <;> rfl
    | executed sid r2 t a =>
      rw [statusOf_append_executed, ih hl]
      split <;> rfl
    | failed sid err t =>
      rw [statusOf_append_failed, ih hl]
      split <;> rfl
    | expired sid =>
      rw [statusOf_append_expired, ih hl]
      split <;> rfl
    | busEmitted eid kind msg sid =>
      rw [statusOf_append_bus]
      exact ih hl

/-- A materialized entry's trigger and action come from a `created` record
for its id present in the log. -/
theorem entry_fields_from_created (log : List StoreEvent) (X : String)
    (e : ScheduleEntry) (h : lookupEntry (materializeMap log) X = some e) :
    ∃ ts rsn cb, (⟨ts, .created X e.trigger e.action rsn cb⟩ : StoreEvent) ∈ log := by
  induction log using List.reverseRecOn generalizing e with
  | nil => exact Option.noConfusion h
  | append_singleton l r ih =>
    rw [materializeMap_append, List.foldl_cons, List.foldl_nil] at h
    obtain ⟨ts, p⟩ := r
    cases p with
    | created sid trg act rsn cb =>
      by_cases hx : X = sid
      · subst hx
        rw [show applyStoreEvent (materializeMap l) ⟨ts, .created X trg act rsn cb⟩
            = setEntry (materializeMap l) X
              { scheduleId := X, trigger := trg, action := act, status := .pending
                reason := if rsn = "" then none else some rsn, createdAt := ts }
            from rfl, lookupEntry_setEntry_self] at h
        have he := Option.some.inj h
        refine ⟨ts, rsn, cb, ?_⟩
        rw [← he]
        simp
      · rw [show applyStoreEvent (materializeMap l) ⟨ts, .created sid trg act rsn cb⟩
            = setEntry (materializeMap l) sid
              { scheduleId := sid, trigger := trg, action := act, status := .pending
                reason := if rsn = "" then none else some rsn, createdAt := ts }
            from rfl, lookupEntry_setEntry_ne _ _ _ _ hx] at h
        obtain ⟨ts2, rsn2, cb2, hmem⟩ := ih _ h
        exact ⟨ts2, rsn2, cb2, List.mem_append_left _ hmem⟩
    | cancelled sid rsn =>
      by_cases hx : X = sid
      · subst hx
        rw [show applyStoreEvent (materializeMap l) ⟨ts, .cancelled X rsn⟩
            = setStatus (materializeMap l) X .cancelled from rfl,
          lookupEntry_setStatus_self] at h
        rcases hl : lookupEntry (materializeMap l) X with _ | e0 <;> rw [hl] at h
        · exact Option.noConfusion h
        · have he := Option.some.inj h
          obtain ⟨ts2, rsn2, cb2, hmem⟩ := ih _ hl
          refine ⟨ts2, rsn2, cb2, List.mem_append_left _ ?_⟩
          rw [← he]
          simpa using hmem
      · rw [show applyStoreEvent (materializeMap l) ⟨ts, .cancelled sid rsn⟩
            = setStatus (materializeMap l) sid .cancelled from rfl,
          lookupEntry_setStatus_ne _ _ _ _ hx] at h
        obtain ⟨ts2, rsn2, cb2, hmem⟩ := ih _ h
        exact ⟨ts2, rsn2, cb2, List.mem_append_left _ hmem⟩
    | executed sid r2 t a =>
      by_cases hx : X = sid
      · subst hx
        rw [show applyStoreEvent (materializeMap l) ⟨ts, .executed X r2 t a⟩
            = setStatus (materializeMap l) X .executed from rfl,
          lookupEntry_setStatus_self] at h
        rcases hl : lookupEntry (materializeMap l) X with _ | e0 <;> rw [hl] at h
        · exact Option.noConfusion h
        · have he := Option.some.inj h
          obtain ⟨ts2, rsn2, cb2, hmem⟩ := ih _ hl
          refine ⟨ts2, rsn2, cb2, List.mem_append_left _ ?_⟩
          rw [← he]
          simpa using hmem
      · rw [show applyStoreEvent (materializeMap l) ⟨ts, .executed sid r2 t a⟩
            = setStatus (materializeMap l) sid .executed from rfl,
          lookupEntry_setStatus_ne _ _ _ _ hx] at h
        obtain ⟨ts2, rsn2, cb2, hmem⟩ := ih _ h
        exact ⟨ts2, rsn2, cb2, List.mem_append_left _ hmem⟩
    | failed sid err t =>
      by_cases hx : X = sid
      · subst hx
        rw [show applyStoreEvent (materializeMap l) ⟨ts, .failed X err t⟩
            = setStatus (materializeMap l) X .failed from rfl,
          lookupEntry_setStatus_self] at h
        rcases hl : lookupEntry (materializeMap l) X with _ | e0 <;> rw [hl] at h
        · exact Option.noConfusion h
        · have he := Option.some.inj h
          obtain ⟨ts2, rsn2, cb2, hmem⟩ := ih _ hl
          refine ⟨ts2, rsn2, cb2, List.mem_append_left _ ?_⟩
          rw [← he]
          simpa using hmem
      · rw [show applyStoreEvent (materializeMap l) ⟨ts, .failed sid err t⟩
            = setStatus (materializeMap l) sid .failed from rfl,
          lookupEntry_setStatus_ne _ _ _ _ hx] at h
        obtain ⟨ts2, rsn2, cb2, hmem⟩ := ih _ h
        exact ⟨ts2, rsn2, cb2, List.mem_append_left _ hmem⟩
    | expired sid =>
      by_cases hx : X = sid
      · subst hx
        rw [show applyStoreEvent (materializeMap l) ⟨ts, .expired X⟩
            = setStatus (materializeMap l) X .expired from rfl,
          lookupEntry_setStatus_self] at h
        rcases hl : lookupEntry (materializeMap l) X with _ | e0 <;> rw [hl] at h
        · exact Option.noConfusion h
        · have he := Option.some.inj h
          obtain ⟨ts2, rsn2, cb2, hmem⟩ := ih _ hl
          refine ⟨ts2, rsn2, cb2, List.mem_append_left _ ?_⟩
          rw [← he]
          simpa using hmem
      · rw [show applyStoreEvent (materializeMap l) ⟨ts, .expired sid⟩
            = setStatus (materializeMap l) sid .expired from rfl,
          lookupEntry_setStatus_ne _ _ _ _ hx] at h
        obtain ⟨ts2, rsn2, cb2, hmem⟩ := ih _ h
        exact ⟨ts2, rsn2, cb2, List.mem_append_left _ hmem⟩
    | busEmitted eid kind msg sid =>
      rw [show applyStoreEvent (materializeMap l) ⟨ts, .busEmitted eid kind msg sid⟩
          = materializeMap l from rfl] at h
      obtain ⟨ts2, rsn2, cb2, hmem⟩ := ih _ h
      exact ⟨ts2, rsn2, cb2, List.mem_append_left _ hmem⟩

/-!
## Invariant machinery for the amended claim
-/

/-- The at-most-one-terminal invariant, tied to the materialized status:
each id has at most one terminal record, and an id with a terminal record
exists and is not pending. -/
def TerminalInv (log : List StoreEvent) : Prop :=
  ∀ X : String, terminalCount log X ≤ 1
    ∧ (terminalCount log X = 1 →
        statusOf log X ≠ none ∧ statusOf log X ≠ some .pending)

theorem terminalCount_single (ts : String) (p : StorePayload) (X : String) :
    terminalCount [⟨ts, p⟩] X = if p.isTerminalFor X then 1 else 0 := by
  rcases h : p.isTerminalFor X <;> simp [terminalCount, List.filter, h]

/-- Appending a guarded terminal record (its target currently pending)
preserves the invariant.  `st` is the terminal status the record writes,
`sid` its target. -/
theorem terminalInv_append_term (log : List StoreEvent) (inv : TerminalInv log)
    (ts sid : String) (p : StorePayload) (st : ScheduleStatus)
    (hst : st ≠ .pending)
    (hterm : ∀ X, p.isTerminalFor X = (sid == X))
    (hstat : ∀ X, statusOf (log ++ [⟨ts, p⟩]) X
      = if X = sid then (statusOf log X).map (fun _ => st) else statusOf log X)
    (hpend : statusOf log sid = some .pending) :
    TerminalInv (log ++ [⟨ts, p⟩]) := by
  intro X
  have hcnt : terminalCount (log ++ [⟨ts, p⟩]) X
      = terminalCount log X + if X = sid then 1 else 0 := by
    rw [terminalCount_append, terminalCount_single, hterm]
    by_cases hx : X = sid
    · simp [hx]
    · have hne : ¬ sid = X := fun he => hx he.symm
      have : (sid == X) = false := by simp [hne]
      simp [this, hx]
  by_cases hx : X = sid
  · subst hx
    have hzero : terminalCount log X = 0 := by
      rcases Nat.lt_or_ge (terminalCount log X) 1 with h1 | h1
      · omega
      · have h2 := (inv X).1
        have h3 : terminalCount log X = 1 := by omega
        exact absurd hpend ((inv X).2 h3).2
    constructor
    · rw [hcnt, hzero]; simp
    · intro _
      rw [hstat X, if_pos rfl, hpend]
      exact ⟨by simp, by simpa using fun he => hst he⟩
  · constructor
    · rw [hcnt, if_neg hx, Nat.add_zero]
      exact (inv X).1
    · intro h1
      rw [hcnt, if_neg hx, Nat.add_zero] at h1
      rw [hstat X, if_neg hx]
      exact (inv X).2 h1

/-- Appending a fresh `created` record preserves the invariant. -/
theorem terminalInv_append_created (log : List StoreEvent) (inv : TerminalInv log)
    (ts sid : String) (trg : Trigger) (act : Action) (rsn cb : String)
    (hfresh : createdCount log sid = 0) :
    TerminalInv (log ++ [⟨ts, .created sid trg act rsn cb⟩]) := by
  intro X
  have hcnt : terminalCount (log ++ [⟨ts, .created sid trg act rsn cb⟩]) X
      = terminalCount log X := by
    rw [terminalCount_append, terminalCount_single]
    simp [StorePayload.isTerminalFor]
  by_cases hx : X = sid
  · subst hx
    have hnone : statusOf log X = none := createdCount_zero_statusOf_none log X hfresh
    constructor
    · rw [hcnt]; exact (inv X).1
    · intro h1
      rw [hcnt] at h1
      exact absurd hnone ((inv X).2 h1).1
  · constructor
    · rw [hcnt]; exact (inv X).1
    · intro h1
      rw [hcnt] at h1
      rw [statusOf_append_created, if_neg hx]
      exact (inv X).2 h1

/-- Appending a bus record preserves the invariant. -/
theorem terminalInv_append_bus (log : List StoreEvent) (inv : TerminalInv log)
    (ts eid kind msg sid : String) :
    TerminalInv (log ++ [⟨ts, .busEmitted eid kind msg sid⟩]) := by
  intro X
  have hcnt : terminalCount (log ++ [⟨ts, .busEmitted eid kind msg sid⟩]) X
      = terminalCount log X := by
    rw [terminalCount_append, terminalCount_single]
    simp [StorePayload.isTerminalFor]
  refine ⟨by rw [hcnt]; exact (inv X).1, ?_⟩
  intro h1
  rw [hcnt] at h1
  rw [statusOf_append_bus]
  exact (inv X).2 h1

/-- `applyOp` only ever appends records. -/
theorem applyOp_extends (log : List StoreEvent) (op : Op) :
    ∃ extra, applyOp log op = log ++ extra := by
  cases op with
  | createTool id trg act rsn ts =>
    by_cases hg : createdCount log id = 0
    · exact ⟨[⟨ts, .created id trg act rsn "assistant"⟩], by simp [applyOp, hg]⟩
    · exact ⟨[], by simp [applyOp, hg]⟩
  | cancelTool id rsn ts =>
    rcases hs : statusOf log id with _ | st
    · exact ⟨[], by simp [applyOp, hs]⟩
    · cases st with
      | pending => exact ⟨[⟨ts, .cancelled id rsn⟩], by simp [applyOp, hs]⟩
      | executed => exact ⟨[], by simp [applyOp, hs]⟩
      | cancelled => exact ⟨[], by simp [applyOp, hs]⟩
      | failed => exact ⟨[], by simp [applyOp, hs]⟩
      | expired => exact ⟨[], by simp [applyOp, hs]⟩
  | emitTool eid kind msg sid ts => exact ⟨[⟨ts, .busEmitted eid kind msg sid⟩], rfl⟩
  | expireStep id ts =>
    rcases hf : (materialize log).find? (fun e => e.scheduleId == id) with _ | e
    · exact ⟨[], by simp [applyOp, hf]⟩
    · rcases ht : e.trigger with at1 | ⟨ek, mm, ex⟩
      · exact ⟨[], by simp [applyOp, hf, ht]⟩
      · rcases ex with _ | x
        · exact ⟨[], by simp [applyOp, hf, ht]⟩
        · by_cases hp : e.status = ScheduleStatus.pending
          · exact ⟨[⟨ts, .expired id⟩], by simp [applyOp, hf, ht, hp]⟩
          · exact ⟨[], by simp [applyOp, hf, ht, hp]⟩
  | execStep id trig ok newId eid sid2 ts =>
    rcases hf : (materialize log).find? (fun e => e.scheduleId == id) with _ | entry
    · exact ⟨[], by simp [applyOp, hf]⟩
    · by_cases hb : (decide (entry.status = ScheduleStatus.pending)
          && (match entry.action with
              | .schedule _ _ _ => decide (createdCount log newId = 0)
              | _ => true) : Bool) = true
      · exact ⟨(performAction log entry trig ok newId eid sid2 ts).1,
          by simp [applyOp, hf, hb]⟩
      · exact ⟨[], by simp [applyOp, hf, hb]⟩

/-- One operation preserves the at-most-one-terminal invariant, provided no
entry of the log is self-cancelling. -/
theorem terminalInv_applyOp (log : List StoreEvent) (op : Op)
    (inv : TerminalInv log)
    (hsc : ∀ r ∈ log, r.payload.selfCancel = false) :
    TerminalInv (applyOp log op) := by
  cases op with
  | createTool id trg act rsn ts =>
    by_cases hg : createdCount log id = 0
    · rw [show applyOp log (.createTool id trg act rsn ts)
          = log ++ [⟨ts, .created id trg act rsn "assistant"⟩] by simp [applyOp, hg]]
      exact terminalInv_append_created log inv ts id trg act rsn "assistant" hg
    · rw [show applyOp log (.createTool id trg act rsn ts) = log by simp [applyOp, hg]]
      exact inv
  | cancelTool id rsn ts =>
    rcases hs : statusOf log id with _ | st
    · rw [show applyOp log (.cancelTool id rsn ts) = log by simp [applyOp, hs]]
      exact inv
    · cases st with
      | pending =>
        rw [show applyOp log (.cancelTool id rsn ts)
            = log ++ [⟨ts, .cancelled id rsn⟩] by simp [applyOp, hs]]
        exact terminalInv_append_term log inv ts id (.cancelled id rsn) .cancelled
          (by decide) (fun X => rfl) (fun X => statusOf_append_cancelled log ts id rsn X) hs
      | executed =>
        rw [show applyOp log (.cancelTool id rsn ts) = log by simp [applyOp, hs]]
        exact inv
      | cancelled =>
        rw [show applyOp log (.cancelTool id rsn ts) = log by simp [applyOp, hs]]
        exact inv
      | failed =>
        rw [show applyOp log (.cancelTool id rsn ts) = log by simp [applyOp, hs]]
        exact inv
      | expired =>
        rw [show applyOp log (.cancelTool id rsn ts) = log by simp [applyOp, hs]]
        exact inv
  | emitTool eid kind msg sid ts =>
    exact terminalInv_append_bus log inv ts eid kind msg sid
  | expireStep id ts =>
    rcases hf : (materialize log).find? (fun e => e.scheduleId == id) with _ | e
    · rw [show applyOp log (.expireStep id ts) = log by simp [applyOp, hf]]
      exact inv
    · rcases ht : e.trigger with at1 | ⟨ek, mm, ex⟩
      · rw [show applyOp log (.expireStep id ts) = log by simp [applyOp, hf, ht]]
        exact inv
      · rcases ex with _ | x
        · rw [show applyOp log (.expireStep id ts) = log by simp [applyOp, hf, ht]]
          exact inv
        · by_cases hp : e.status = ScheduleStatus.pending
          · have hpend : statusOf log id = some .pending := by
              rw [statusOf_eq_find, hf]
              simp [hp]
            rw [show applyOp log (.expireStep id ts)
                = log ++ [⟨ts, .expired id⟩] by simp [applyOp, hf, ht, hp]]
            exact terminalInv_append_term log inv ts id (.expired id) .expired
              (by decide) (fun X => rfl)
              (fun X => statusOf_append_expired log ts id X) hpend
          · rw [show applyOp log (.expireStep id ts) = log by simp [applyOp, hf, ht, hp]]
            exact inv
  | execStep id trig ok newId eid sid2 ts =>
    rcases hf : (materialize log).find? (fun e => e.scheduleId == id) with _ | entry
    · rw [show applyOp log (.execStep id trig ok newId eid sid2 ts) = log by
        simp [applyOp, hf]]
      exact inv
    · by_cases hb : (decide (entry.status = ScheduleStatus.pending)
          && (match entry.action with
              | .schedule _ _ _ => decide (createdCount log newId = 0)
              | _ => true) : Bool) = true
      · have hand := hb
        rw [Bool.and_eq_true] at hand
        have hp : entry.status = .pending := of_decide_eq_true hand.1
        have hpend : statusOf log id = some .pending := by
          rw [statusOf_eq_find, hf]
          simp [hp]
        have hid : entry.scheduleId = id := by
          have := List.find?_some hf
          simpa using this
        have hpend2 : statusOf log entry.scheduleId = some .pending := by
          rw [hid]; exact hpend
        rw [show applyOp log (.execStep id trig ok newId eid sid2 ts)
            = log ++ (performAction log entry trig ok newId eid sid2 ts).1 by
          simp [applyOp, hf, hb]]
        cases ha : entry.action with
        | command c a sid =>
          cases ok
          · rw [show (performAction log entry trig false newId eid sid2 ts).1
                = [⟨ts, .failed entry.scheduleId "error" trig⟩] by
              simp [performAction, ha]]
            exact terminalInv_append_term log inv ts entry.scheduleId
              (.failed entry.scheduleId "error" trig) .failed (by decide)
              (fun X => rfl) (fun X => statusOf_append_failed log ts entry.scheduleId "error" trig X)
              hpend2
          · rw [show (performAction log entry trig true newId eid sid2 ts).1
                = [⟨ts, .executed entry.scheduleId "success" trig
                    (some (if sid = "new" then sid2 else sid))⟩] by
              simp [performAction, ha]]
            exact terminalInv_append_term log inv ts entry.scheduleId
              (.executed entry.scheduleId "success" trig
                (some (if sid = "new" then sid2 else sid))) .executed (by decide)
              (fun X => rfl)
              (fun X => statusOf_append_executed log ts entry.scheduleId "success" trig
                (some (if sid = "new" then sid2 else sid)) X)
              hpend2
        | emit kind msg =>
          rw [show (performAction log entry trig ok newId eid sid2 ts).1
              = [⟨ts, .busEmitted eid kind msg "agenda"⟩,
                 ⟨ts, .executed entry.scheduleId "emitted" trig none⟩] by
            simp [performAction, ha]]
          rw [show log ++ [(⟨ts, .busEmitted eid kind msg "agenda"⟩ : StoreEvent),
              ⟨ts, .executed entry.scheduleId "emitted" trig none⟩]
              = (log ++ [⟨ts, .busEmitted eid kind msg "agenda"⟩])
                ++ [⟨ts, .executed entry.scheduleId "emitted" trig none⟩] by simp]
          have inv1 := terminalInv_append_bus log inv ts eid kind msg "agenda"
          have hpend3 : statusOf (log ++ [⟨ts, .busEmitted eid kind msg "agenda"⟩])
              entry.scheduleId = some .pending := by
            rw [statusOf_append_bus]
            exact hpend2
          exact terminalInv_append_term _ inv1 ts entry.scheduleId
            (.executed entry.scheduleId "emitted" trig none) .executed (by decide)
            (fun X => rfl)
            (fun X => statusOf_append_executed _ ts entry.scheduleId "emitted" trig none X)
            hpend3
        | cancel tid rsn2 =>
          have hlook : lookupEntry (materializeMap log) id = some entry := by
            rw [← find_materialize_eq_lookup]
            exact hf
          obtain ⟨ts0, rsn0, cb0, hmem⟩ := entry_fields_from_created log id entry hlook
          have htid : tid ≠ id := by
            have hscr := hsc _ hmem
            simp only [StorePayload.selfCancel, ha] at hscr
            simpa using hscr
          rcases hft : (materialize log).find? (fun e => e.scheduleId == tid) with _ | t
          · rw [show (performAction log entry trig ok newId eid sid2 ts).1
                = [⟨ts, .executed entry.scheduleId "cancelled-target" trig none⟩] by
              simp [performAction, ha, hft]]
            exact terminalInv_append_term log inv ts entry.scheduleId
              (.executed entry.scheduleId "cancelled-target" trig none) .executed
              (by decide) (fun X => rfl)
              (fun X => statusOf_append_executed log ts entry.scheduleId
                "cancelled-target" trig none X)
              hpend2
          · by_cases hpt : t.status = ScheduleStatus.pending
            · have hpendT : statusOf log tid = some .pending := by
                rw [statusOf_eq_find, hft]
                simp [hpt]
              rw [show (performAction log entry trig ok newId eid sid2 ts).1
                  = [⟨ts, StorePayload.cancelled tid rsn2⟩,
                     ⟨ts, .executed entry.scheduleId "cancelled-target" trig none⟩] by
                simp [performAction, ha, hft, hpt]]
              rw [show log ++ [(⟨ts, StorePayload.cancelled tid rsn2⟩ : StoreEvent),
                  ⟨ts, .executed entry.scheduleId "cancelled-target" trig none⟩]
                  = (log ++ [⟨ts, StorePayload.cancelled tid rsn2⟩])
                    ++ [⟨ts, .executed entry.scheduleId "cancelled-target" trig none⟩] by
                simp]
              have inv1 := terminalInv_append_term log inv ts tid
                (.cancelled tid rsn2) .cancelled (by decide) (fun X => rfl)
                (fun X => statusOf_append_cancelled log ts tid rsn2 X) hpendT
              have hpend3 : statusOf (log ++ [⟨ts, StorePayload.cancelled tid rsn2⟩])
                  entry.scheduleId = some .pending := by
                rw [statusOf_append_cancelled,
                  if_neg (show ¬ entry.scheduleId = tid from fun he => htid (by rw [← he, hid]))]
                exact hpend2
              exact terminalInv_append_term _ inv1 ts entry.scheduleId
                (.executed entry.scheduleId "cancelled-target" trig none) .executed
                (by decide) (fun X => rfl)
                (fun X => statusOf_append_executed _ ts entry.scheduleId
                  "cancelled-target" trig none X)
                hpend3
            · rw [show (performAction log entry trig ok newId eid sid2 ts).1
                  = [⟨ts, .executed entry.scheduleId "cancelled-target" trig none⟩] by
                simp [performAction, ha, hft, hpt]]
              exact terminalInv_append_term log inv ts entry.scheduleId
                (.executed entry.scheduleId "cancelled-target" trig none) .executed
                (by decide) (fun X => rfl)
                (fun X => statusOf_append_executed log ts entry.scheduleId
                  "cancelled-target" trig none X)
                hpend2
        | schedule act trg rsn2 =>
          have hfresh : createdCount log newId = 0 := by
            have h2 := hand.2
            rw [ha] at h2
            exact of_decide_eq_true h2
          have hnewid : ¬ entry.scheduleId = newId := by
            intro he
            have hnone := createdCount_zero_statusOf_none log newId hfresh
            rw [← he] at hnone
            rw [hpend2] at hnone
            exact Option.noConfusion hnone
          rw [show (performAction log entry trig ok newId eid sid2 ts).1
              = [⟨ts, .created newId trg act rsn2 "agenda"⟩,
                 ⟨ts, .executed entry.scheduleId ("created-" ++ newId) trig none⟩] by
            simp [performAction, ha]]
          rw [show log ++ [(⟨ts, .created newId trg act rsn2 "agenda"⟩ : StoreEvent),
              ⟨ts, .executed entry.scheduleId ("created-" ++ newId) trig none⟩]
              = (log ++ [⟨ts, .created newId trg act rsn2 "agenda"⟩])
                ++ [⟨ts, .executed entry.scheduleId ("created-" ++ newId) trig none⟩] by
            simp]
          have inv1 := terminalInv_append_created log inv ts newId trg act rsn2 "agenda" hfresh
          have hpend3 : statusOf (log ++ [⟨ts, .created newId trg act rsn2 "agenda"⟩])
              entry.scheduleId = some .pending := by
            rw [statusOf_append_created, if_neg hnewid]
            exact hpend2
          exact terminalInv_append_term _ inv1 ts entry.scheduleId
            (.executed entry.scheduleId ("created-" ++ newId) trig none) .executed
            (by decide) (fun X => rfl)
            (fun X => statusOf_append_executed _ ts entry.scheduleId
              ("created-" ++ newId) trig none X)
            hpend3
      · rw [show applyOp log (.execStep id trig ok newId eid sid2 ts) = log by
          simp [applyOp, hf, hb]]
        exact inv

theorem terminalInv_runOps (ops : List Op)
    (h : ∀ r ∈ runOps ops, r.payload.selfCancel = false) :
    TerminalInv (runOps ops) := by
  induction ops using List.reverseRecOn with
  | nil =>
    intro X
    refine ⟨by simp [runOps, terminalCount], ?_⟩
    intro h1
    simp [runOps, terminalCount] at h1
  | append_singleton ops op ih =>
    have hrun : runOps (ops ++ [op]) = applyOp (runOps ops) op := by
      simp [runOps, List.foldl_append]
    rw [hrun] at h ⊢
    have hpre : ∀ r ∈ runOps ops, r.payload.selfCancel = false := by
      obtain ⟨extra, hex⟩ := applyOp_extends (runOps ops) op
      intro r hr
      exact h r (by rw [hex]; exact List.mem_append_left _ hr)
    exact terminalInv_applyOp (runOps ops) op (ih hpre) hpre

/-- C2 (amended) — for every entry id, across any log the sequential
system produces (`runOps` over any operation sequence), at most one
terminal status record is appended for that id, PROVIDED no created entry
carries a cancel action targeting its own id.  (Self-cancelling entries
are the one exception: see the counterexample, where one drain execution
appends both a cancelled and an executed record for the same id.)  The
drain guard, cancel tool and cancel action all check the target's current
status before appending, which is what the proof's invariant tracks. -/
theorem terminal_at_most_once_amended (ops : List Op)
    (h : ∀ r ∈ runOps ops, r.payload.selfCancel = false) (X : String) :
    terminalCount (runOps ops) X ≤ 1 :=
  (terminalInv_runOps ops h X).1

/-- Concrete instance: a created-then-drained (non-self-cancelling) entry
ends with a single terminal record. -/
theorem terminal_at_most_once_amended_witness :
    terminalCount (runOps
        [.createTool "A" (.time "0") (.emit "X" "m") "" "1",
         .execStep "A" none true "n" "e" "s" "2"]) "A" ≤ 1 :=
  terminal_at_most_once_amended
    [.createTool "A" (.time "0") (.emit "X" "m") "" "1",
     .execStep "A" none true "n" "e" "s" "2"] (by decide) "A"

/-!
## Claim C4 — overlapping ticks

`plugin.ts` installs the poll loop with `setInterval(tick, 5000)` and `tick`
has no reentrancy guard: no busy flag is checked or set anywhere in the
plugin.  A tick body suspends at its `await`s (the command collaborator,
`store.append`), so when a drain outlives the 5-second interval the next
timer callback starts a second tick over the same shared store.  The model
below splits the drain's per-entry processing at the suspension point into
its two atomic halves — the pending check (`store.entries().find(...)`,
`entry.status !== "pending"`) and the terminal append that follows the
awaited external call — and runs two tick instances under an explicit
interleaving. -/

/-- Shared log plus each tick instance's recorded outcome of its pending
check (`none` = the check has not run yet). -/
structure RaceState where
  log : List StoreEvent
  ok1 : Option Bool
  ok2 : Option Bool
deriving DecidableEq, Repr

/-- Atomic steps of the two overlapping tick bodies. -/
inductive RaceLabel where
  | check1
  | commit1
  | check2
  | commit2
deriving DecidableEq, Repr

/-- One atomic step: a check reads the entry's current status; a commit
appends the executed record iff the instance's own check saw `pending`. -/
def raceStep (id ts : String) (s : RaceState) : RaceLabel → RaceState
  | .check1 => { s with ok1 := some (decide (statusOf s.log id = some .pending)) }
  | .commit1 =>
    if s.ok1 = some true then
      { s with log := s.log ++ [⟨ts, .executed id "success" none none⟩] }
    else s
  | .check2 => { s with ok2 := some (decide (statusOf s.log id = some .pending)) }
  | .commit2 =>
    if s.ok2 = some true then
      { s with log := s.log ++ [⟨ts, .executed id "success" none none⟩] }
    else s

/-- Run an interleaving of the two tick bodies. -/
def raceRun (id ts : String) (labels : List RaceLabel) (s : RaceState) : RaceState :=
  labels.foldl (raceStep id ts) s

/-- C4 fails on the code: with no skip-if-busy guard, the interleaving in
which the second tick's pending check runs while the first tick is
suspended between its check and its append makes BOTH ticks execute the
same pending entry — two executed records, the entry evaluated by two
ticks.  Run serially (one tick completing before the next), the same steps
execute it exactly once, which is the behavior the claim promises and the
code does not enforce. -/
theorem overlapping_ticks_double_execute :
    execCount (raceRun "a" "2" [.check1, .check2, .commit1, .commit2]
        ⟨[⟨"1", .created "a" (.time "0") (.command "c" "" "s") "" "user"⟩],
         none, none⟩).log "a" = 2
    ∧ execCount (raceRun "a" "2" [.check1, .commit1, .check2, .commit2]
        ⟨[⟨"1", .created "a" (.time "0") (.command "c" "" "s") "" "user"⟩],
         none, none⟩).log "a" = 1 := by
  exact ⟨by decide, by decide⟩

end Agenda
